import Mathlib

/-!
# OpenList upload drivers: chunked upload and authenticated request layer

Shallow embedding of

* `drivers/123_open/upload.go`   : `Open123.Upload`
* `drivers/aliyundrive/util.go`  : `AliDrive.createSession`, `AliDrive.request`, `AliDrive.requestS`
* `drivers/aliyundrive/driver.go`: `AliDrive.Put`

Network calls, the stream and the context are inputs (oracles) of the models; every call the
code makes is recorded in a trace of events, so that statements about what was (not) issued
are statements about that trace.  `float64` progress values are kept as exact rationals; the
part count of `Put` is computed with `float64` rounding, as the code does.
-/

namespace Open123

/-- Two's-complement wrap of an integer into the `int64` range. -/
def wrap64 (x : Int) : Int := (x + 2 ^ 63) % 2 ^ 64 - 2 ^ 63

/-- The per-part variables captured by the task closure (`upload.go` lines 97-100). -/
structure PartTask where
  partIndex : Int
  partNumber : Int
  offset : Int
  size : Int
deriving DecidableEq, Repr

/-- Calls made by `Upload`, in the order they are made. -/
inductive Event
  | newGroup (thread : Int)
  | dispatch (p : PartTask)
  | getSectionReader (offset size : Int)
  | url (partNumber : Int)
  | put (partNumber : Int) (contentLength : Int)
  | up (v : ℚ)
  | recycle (partIndex : Int)
  | complete
  | async
deriving DecidableEq

/-- What the outside world answers during one attempt of a part task. -/
structure Attempt where
  /-- error of `ss.GetSectionReader` -/
  sectionErr : Option String
  /-- error of `d.url` -/
  urlErr : Option String
  /-- error of `http.NewRequestWithContext` -/
  requestErr : Option String
  /-- error of `base.HttpClient.Do` -/
  doErr : Option String
  /-- status code of the PUT response when `Do` returned one -/
  status : Nat

/-- Result of one attempt: the returned error, whether `reader` is bound afterwards, the calls made. -/
structure AttemptResult where
  err : Option String
  reader : Bool
  events : List Event

/-- One run of the closure passed to `threadG.GoWithResult` (`upload.go` lines 103-133).
`success` is the value `threadG.Success()` has when the progress is computed. -/
def partAttempt (p : PartTask) (uploadNums : Int) (success : Nat) (reader : Bool)
    (a : Attempt) : AttemptResult :=
  let fetch : List Event := if reader then [] else [Event.getSectionReader p.offset p.size]
  match (if reader then none else a.sectionErr) with
  | some e => ⟨some e, false, fetch⟩
  | none =>
    match a.urlErr with
    | some e => ⟨some e, true, fetch ++ [Event.url p.partNumber]⟩
    | none =>
      match a.requestErr with
      | some e => ⟨some e, true, fetch ++ [Event.url p.partNumber]⟩
      | none =>
        match a.doErr with
        | some e => ⟨some e, true, fetch ++ [Event.url p.partNumber, Event.put p.partNumber p.size]⟩
        | none =>
          ⟨none, true, fetch ++ [Event.url p.partNumber, Event.put p.partNumber p.size,
            Event.up (10 + 85 * (success : ℚ) / (uploadNums : ℚ))]⟩

/-- Modelled from the spec: the retry wrapper of the ordered concurrency group
(`pkg/errgroup` with `retry.Attempts(3)`, not among the sources): the task is re-run while it
fails and attempts remain; the error of the last attempt is surfaced. -/
def retryDo (f : Nat → Bool → AttemptResult) : Nat → Nat → Bool → List Event → AttemptResult
  | 0, _, reader, evs => ⟨none, reader, evs⟩
  | n + 1, k, reader, evs =>
    let r := f k reader
    match r.err with
    | none => ⟨none, r.reader, evs ++ r.events⟩
    | some e =>
      if n = 0 then ⟨some e, r.reader, evs ++ r.events⟩
      else retryDo f n (k + 1) r.reader (evs ++ r.events)

/-- State of the ordered concurrency group. -/
structure Group where
  success : Nat
  firstErr : Option String
  trace : List Event

/-- Modelled from the spec: `threadG.GoWithResult` of the ordered concurrency group
(`pkg/errgroup`, not among the sources) under a sequential schedule: the task runs to its end
when it is dispatched, with 3 attempts; its cleanup callback runs once; a success increments
the success counter, the first failure is latched. -/
def goWithResult (g : Group) (p : PartTask) (uploadNums : Int) (att : Nat → Attempt) : Group :=
  let r := retryDo (fun k reader => partAttempt p uploadNums g.success reader (att k)) 3 0 false []
  let tr := g.trace ++ [Event.dispatch p] ++ r.events ++ [Event.recycle p.partIndex]
  match r.err with
  | none => ⟨g.success + 1, g.firstErr, tr⟩
  | some e => ⟨g.success, g.firstErr.orElse (fun _ => some e), tr⟩

/-- Inputs of one run of `Upload`. -/
structure UploadEnv where
  /-- Value of `file.GetSize()` -/
  size : Int
  /-- Value of `createResp.Data.SliceSize` -/
  sliceSize : Int
  /-- Value of `d.UploadThread` -/
  uploadThread : Int
  /-- error of `stream.NewStreamSectionReader` -/
  readerErr : Option String
  /-- value of `utils.IsCanceled(uploadCtx)` at the check before part `k` -/
  canceled : Nat → Bool
  /-- Value of `uploadCtx.Err()` -/
  ctxErr : String
  /-- answers during attempt `j` of part `k` -/
  attempt : Nat → Nat → Attempt
  /-- Answer of `d.complete`: an error, or the flags `Async` and `Completed` -/
  completeResp : Except String (Bool × Bool)
  /-- Answer of `d.async`, call number `k`: an error, or the flag `Completed` -/
  asyncResp : Nat → Except String Bool

/-- What `Upload` returns: `nil`, an error, or the run-time panic of an integer division by zero. -/
inductive Ret
  | nil
  | error (e : String)
  | divideByZero
deriving DecidableEq, Repr

/-- A finished run: the returned value and the calls made. -/
structure Run where
  ret : Ret
  trace : List Event

/-- The assignment `uploadNums := (size + chunkSize - 1) / chunkSize` in `int64` arithmetic (line 82). -/
def uploadNums (size chunkSize : Int) : Int :=
  wrap64 (Int.tdiv (wrap64 (wrap64 (size + chunkSize) - 1)) chunkSize)

/-- The variables of one loop iteration (lines 97-100). -/
def mkPart (size chunkSize partIndex : Int) : PartTask :=
  let offset := wrap64 (partIndex * chunkSize)
  { partIndex := partIndex
    partNumber := wrap64 (partIndex + 1)
    offset := offset
    size := min chunkSize (wrap64 (size - offset)) }

/-- The part loop (lines 93-136); the first argument counts the iterations that are left.
Returns the group and whether the loop was left through the cancellation check. -/
def partLoop (env : UploadEnv) (nums : Int) : Nat → Int → Group → Group × Bool
  | 0, _, g => (g, false)
  | n + 1, partIndex, g =>
    if partIndex < nums then
      if env.canceled partIndex.toNat then (g, true)
      else
        partLoop env nums n (wrap64 (partIndex + 1))
          (goWithResult g (mkPart env.size env.sliceSize partIndex) nums
            (env.attempt partIndex.toNat))
    else (g, false)

/-- Where `Upload` stands after `threadG.Wait()`: it has returned, or it goes on to completion. -/
inductive Phase
  | returned (r : Run)
  | waited (trace : List Event)

/-- The calls made so far. -/
def Phase.trace : Phase → List Event
  | Phase.returned r => r.trace
  | Phase.waited tr => tr

/-- Lines 80-140 of `Upload`: sizing, the part loop and `threadG.Wait()`. -/
def uploadParts (env : UploadEnv) : Phase :=
  let size := env.size
  let chunkSize := env.sliceSize
  if chunkSize = 0 then Phase.returned ⟨Ret.divideByZero, []⟩
  else
    let nums := uploadNums size chunkSize
    let thread := min nums env.uploadThread
    let tr0 := [Event.newGroup thread]
    match env.readerErr with
    | some e => Phase.returned ⟨Ret.error e, tr0⟩
    | none =>
      match partLoop env nums nums.toNat 0 ⟨0, none, tr0⟩ with
      | (g, true) => Phase.returned ⟨Ret.error env.ctxErr, g.trace⟩
      | (g, false) =>
        match g.firstErr with
        | some e => Phase.returned ⟨Ret.error e, g.trace⟩
        | none => Phase.waited g.trace

/-- The polling loop (lines 150-158) followed by lines 159-160; `none` when the fuel runs out. -/
def pollLoop (asyncResp : Nat → Except String Bool) : Nat → Nat → List Event → Option Run
  | 0, _, _ => none
  | fuel + 1, k, tr =>
    match asyncResp k with
    | Except.error e => some ⟨Ret.error e, tr ++ [Event.async]⟩
    | Except.ok true => some ⟨Ret.nil, tr ++ [Event.async, Event.up 100]⟩
    | Except.ok false => pollLoop asyncResp fuel (k + 1) (tr ++ [Event.async])

/-- Lines 142-160 of `Upload`: completion and the asynchronous poll. -/
def uploadFinish (fuel : Nat) (env : UploadEnv) (tr : List Event) : Option Run :=
  match env.completeResp with
  | Except.error e => some ⟨Ret.error e, tr ++ [Event.complete]⟩
  | Except.ok (async, completed) =>
    if async = false ∨ completed = true then some ⟨Ret.nil, tr ++ [Event.complete]⟩
    else pollLoop env.asyncResp fuel 0 (tr ++ [Event.complete])

/-- Model of `Open123.Upload`; `none` when the polling loop is still running after `fuel` polls. -/
def Upload (fuel : Nat) (env : UploadEnv) : Option Run :=
  match uploadParts env with
  | Phase.returned r => some r
  | Phase.waited tr => uploadFinish fuel env tr

/-- The parts handed to `GoWithResult`, in order. -/
def dispatched (tr : List Event) : List PartTask :=
  tr.filterMap (fun e => match e with
    | Event.dispatch p => some p
    | _ => none)

/-- The values passed to the progress callback `up`, in order. -/
def progress (tr : List Event) : List ℚ :=
  tr.filterMap (fun e => match e with
    | Event.up v => some v
    | _ => none)

/-- Number of calls of the status endpoint `d.async`. -/
def polls (tr : List Event) : Nat :=
  tr.count Event.async

/-- Answers of an attempt in which every call succeeds and the PUT is answered with `status`. -/
def okAttempt (status : Nat) : Attempt :=
  ⟨none, none, none, none, status⟩

/-- A run over a 25 MB stream with 10 MB slices and 2 threads: nothing fails, nothing is
cancelled, and completion is synchronous. -/
def env25MB : UploadEnv where
  size := 26214400
  sliceSize := 10485760
  uploadThread := 2
  readerErr := none
  canceled := fun _ => false
  ctxErr := "context canceled"
  attempt := fun _ _ => okAttempt 200
  completeResp := Except.ok (false, true)
  asyncResp := fun _ => Except.ok true

/-- What holds of every call made up to `threadG.Wait()`: it is neither the completion request
nor a poll, and a reported progress value is at most 95. -/
def partEvent (e : Event) : Prop :=
  match e with
  | Event.up v => v ≤ 95
  | Event.complete => False
  | Event.async => False
  | _ => True

/-- A run whose completion is asynchronous: the status endpoint answers `false`, `false`, `true`. -/
def envAsync : UploadEnv where
  size := 26214400
  sliceSize := 10485760
  uploadThread := 2
  readerErr := none
  canceled := fun _ => false
  ctxErr := "context canceled"
  attempt := fun _ _ => okAttempt 200
  completeResp := Except.ok (true, false)
  asyncResp := fun k => Except.ok (decide (2 ≤ k))

/-- A run in which cancellation is first observed at the check before part 1. -/
def envCancel : UploadEnv where
  size := 26214400
  sliceSize := 10485760
  uploadThread := 2
  readerErr := none
  canceled := fun k => decide (1 ≤ k)
  ctxErr := "context canceled"
  attempt := fun _ _ => okAttempt 200
  completeResp := Except.ok (false, true)
  asyncResp := fun _ => Except.ok true

/-- Whether `threadG.Wait()` returned `nil`, so that `Upload` goes on to the completion request. -/
def Phase.isWaited : Phase → Bool
  | Phase.returned _ => false
  | Phase.waited _ => true

end Open123

namespace AliDrive

/-- The structured error body `RespErr` of a response. -/
structure RespErr where
  code : String
  message : String
deriving DecidableEq, Repr

/-- What `req.Execute` yields: a transport error, or a response with its decoded error body. -/
structure Response where
  /-- the `err` returned by `req.Execute` -/
  transportErr : Option String
  /-- the error body decoded through `SetError` -/
  e : RespErr
  /-- Value of `res.IsError()` -/
  isError : Bool
  /-- Value of `res.Status()` -/
  status : String
  /-- Value of `res.Body()` -/
  body : String

/-- What the token endpoint answers to `refreshToken` (`util.go` lines 60-85). -/
structure TokenResponse where
  transportErr : Option String
  e : RespErr
  refreshToken : String
  accessToken : String

/-- Calls made by the request layer, in the order they are made. -/
inductive Event
  | execute (url : String)
  | refreshToken
  | sign
  | getSign
  | generateSecurityHeader (url : String)
deriving DecidableEq, Repr

/-- The outside world of the request layer. -/
structure Env where
  /-- Value of `d.UserID` -/
  userID : String
  /-- whether `global.Load(d.UserID)` finds the signing state -/
  loaded : Bool
  /-- answer to the `k`-th `req.Execute` of `request` -/
  server : Nat → Response
  /-- answer to the `k`-th call of the token endpoint -/
  token : Nat → TokenResponse
  /-- error of the hook call `/encrypt` in the `k`-th `requestS` -/
  getSignErr : Nat → Option String
  /-- error of the hook call `/generateSecurityHeader` in the `k`-th `requestS` -/
  securityHeaderErr : Nat → Option String

/-- The driver and its signing state, with the counters that index the answers of `Env`. -/
structure St where
  /-- Value of `state.retry` -/
  retry : Nat
  /-- number of `req.Execute` calls made by `request` -/
  executed : Nat
  /-- number of calls of the token endpoint -/
  refreshed : Nat
  /-- number of `requestS` calls -/
  signed : Nat
  /-- the calls made -/
  trace : List Event
deriving DecidableEq, Repr

/-- The three values `request` returns: body, error, `RespErr`. -/
structure Result where
  body : Option String
  err : Option String
  e : RespErr
deriving DecidableEq, Repr

/-- The session-creation endpoint. -/
def createSessionUrl : String := "https://api.alipan.com/users/v1/users/device/create_session"

/-- The endpoint for which `request` tolerates a missing signing state. -/
def userGetUrl : String := "https://api.alipan.com/v2/user/get"

/-- Model of `AliDrive.refreshToken` (`util.go` lines 60-85): the returned error and the new state. -/
def refreshToken (env : Env) (s : St) : Option String × St :=
  let r := env.token s.refreshed
  let s1 := { s with refreshed := s.refreshed + 1, trace := s.trace ++ [Event.refreshToken] }
  match r.transportErr with
  | some err => (some err, s1)
  | none =>
    if r.e.code ≠ "" then (some ("failed to refresh token: " ++ r.e.message), s1)
    else if r.refreshToken = "" then
      (some "failed to refresh token: refresh token is empty", s1)
    else (none, s1)

/-- Model of `AliDrive.requestS` (`util.go` lines 147-186) for a driver without `ref`; `req` is
`d.request`. -/
def requestSWith (req : String → St → Option (Result × St)) (env : Env) (url : String)
    (s : St) : Option (Result × St) :=
  let s0 := { s with signed := s.signed + 1, trace := s.trace ++ [Event.getSign] }
  match env.getSignErr s.signed with
  | some err => some (⟨none, some err, ⟨"", ""⟩⟩, s0)
  | none =>
    let s1 := { s0 with trace := s0.trace ++ [Event.generateSecurityHeader url] }
    match env.securityHeaderErr s.signed with
    | some err => some (⟨none, some err, ⟨"", ""⟩⟩, s1)
    | none => req url s1

/-- Model of `AliDrive.createSession` (`util.go` lines 20-42); `reqS` is the call of `d.requestS` on the
session-creation endpoint.  Returns the error and the new state. -/
def createSessionWith (reqS : St → Option (Result × St)) (env : Env) (s : St) :
    Option (Option String × St) :=
  if env.loaded = false then
    some (some ("can't load user state, user_id: " ++ env.userID), s)
  else
    let s1 := { s with trace := s.trace ++ [Event.sign], retry := s.retry + 1 }
    if s1.retry > 3 then
      some (some "createSession failed after three retries", { s1 with retry := 0 })
    else
      match reqS s1 with
      | none => none
      | some (r, s2) =>
        match r.err with
        | none => some (none, { s2 with retry := 0 })
        | some err => some (some err, s2)

/-- Model of `AliDrive.request` (`util.go` lines 87-145) for a driver without `ref`; `none` when the
recursion is still going on after `fuel` nested calls. -/
def request (env : Env) : Nat → String → St → Option (Result × St)
  | 0, _, _ => none
  | fuel + 1, url, s =>
    if env.loaded = false ∧ url ≠ userGetUrl then
      some (⟨none, some ("can't load user state, user_id: " ++ env.userID), ⟨"", ""⟩⟩, s)
    else
      let res := env.server s.executed
      let s1 := { s with executed := s.executed + 1, trace := s.trace ++ [Event.execute url] }
      match res.transportErr with
      | some err => some (⟨none, some err, res.e⟩, s1)
      | none =>
        if res.e.code ≠ "" then
          if res.e.code = "AccessTokenInvalid" then
            match refreshToken env s1 with
            | (some err, s2) => some (⟨none, some err, res.e⟩, s2)
            | (none, s2) => request env fuel url s2
          else if res.e.code = "DeviceSessionSignatureInvalid" then
            match createSessionWith
                (requestSWith (request env fuel) env createSessionUrl) env s1 with
            | none => none
            | some (some err, s2) => some (⟨none, some err, res.e⟩, s2)
            | some (none, s2) => request env fuel url s2
          else some (⟨none, some res.e.message, res.e⟩, s1)
        else if res.isError then
          some (⟨none, some ("bad status code " ++ res.status), res.e⟩, s1)
        else some (⟨some res.body, none, res.e⟩, s1)

/-- Model of `AliDrive.requestS`. -/
def requestS (env : Env) (fuel : Nat) (url : String) (s : St) : Option (Result × St) :=
  requestSWith (request env fuel) env url s

/-- Model of `AliDrive.createSession`. -/
def createSession (env : Env) (fuel : Nat) (s : St) : Option (Option String × St) :=
  createSessionWith (requestS env fuel createSessionUrl) env s

/-- Number of token refreshes in a trace. -/
def refreshes (tr : List Event) : Nat := tr.count Event.refreshToken

/-- Number of `req.Execute` calls on `url` in a trace. -/
def executions (url : String) (tr : List Event) : Nat := tr.count (Event.execute url)

/-- The state of a driver that has made no call yet. -/
def St.init : St := ⟨0, 0, 0, 0, []⟩

/-- A response carrying the structured error code `code`. -/
def codeResponse (code : String) : Response :=
  ⟨none, ⟨code, "rejected: " ++ code⟩, true, "401 Unauthorized", ""⟩

/-- A successful response. -/
def okResponse : Response :=
  ⟨none, ⟨"", ""⟩, false, "200 OK", "ok"⟩

/-- A successful answer of the token endpoint. -/
def okToken : TokenResponse :=
  ⟨none, ⟨"", ""⟩, "refresh", "access"⟩

/-- A server that answers every request with `AccessTokenInvalid`, while every token refresh
and every hook call succeeds. -/
def envTokenLoop : Env where
  userID := "u"
  loaded := true
  server := fun _ => codeResponse "AccessTokenInvalid"
  token := fun _ => okToken
  getSignErr := fun _ => none
  securityHeaderErr := fun _ => none

/-- A server that answers the first two requests with `AccessTokenInvalid` and then succeeds. -/
def envTokenTwice : Env where
  userID := "u"
  loaded := true
  server := fun k => if k < 2 then codeResponse "AccessTokenInvalid" else okResponse
  token := fun _ => okToken
  getSignErr := fun _ => none
  securityHeaderErr := fun _ => none

/-- A server that rejects the first request with a code the client does not repair. -/
def envForbidden : Env where
  userID := "u"
  loaded := true
  server := fun _ => codeResponse "ForbiddenNoPermission"
  token := fun _ => okToken
  getSignErr := fun _ => none
  securityHeaderErr := fun _ => none

/-- A session-creation request that fails with a transport error and touches nothing else. -/
def failingSessionRequest (s : St) : Option (Result × St) :=
  some (⟨none, some "connection reset", ⟨"", ""⟩⟩,
    { s with trace := s.trace ++ [Event.execute createSessionUrl] })

/-- Constant `const DEFAULT int64 = 10485760` (`driver.go` line 192). -/
def DEFAULT : Int := 10485760

/-- Nearest integer to `num / den`, a tie going to the even neighbour. -/
def roundHalfEven (num den : Nat) : Nat :=
  let q := num / den
  let r := num % den
  if 2 * r < den then q
  else if den < 2 * r then q + 1
  else if q % 2 = 0 then q else q + 1

/-- Number of halvings that bring `num / den` below `2 ^ 53`. -/
def shiftDown : Nat → Nat → Nat → Nat
  | 0, _, _ => 0
  | fuel + 1, num, den => if num < 2 ^ 53 * den then 0 else 1 + shiftDown fuel num (2 * den)

/-- Number of doublings that bring `num / den` up to `2 ^ 52`. -/
def shiftUp : Nat → Nat → Nat → Nat
  | 0, _, _ => 0
  | fuel + 1, num, den => if 2 ^ 52 * den ≤ num then 0 else 1 + shiftUp fuel (2 * num) den

/-- The `float64` nearest to the rational `num / den ≥ 0` (round to nearest, ties to even, a
mantissa of 53 bits; exponents of the normal range), as a numerator and a denominator. -/
def float64Of (num den : Nat) : Nat × Nat :=
  if num = 0 then (0, 1)
  else
    let d := shiftDown 1100 num den
    if 0 < d then (roundHalfEven num (den * 2 ^ d) * 2 ^ d, 1)
    else
      let u := shiftUp 1100 num den
      (roundHalfEven (num * 2 ^ u) den, 2 ^ u)

/-- The assignment `count = int(math.Ceil(float64(size) / float64(DEFAULT)))` (line 193) in
`float64` arithmetic: both conversions and the quotient are rounded to the nearest `float64`,
then the least integer not below the quotient is taken. -/
def count (size : Int) : Int :=
  let x := float64Of size.natAbs 1
  let y := float64Of DEFAULT.natAbs 1
  let q := float64Of (x.1 * y.2) (x.2 * y.1)
  if 0 ≤ size then (((q.1 + q.2 - 1) / q.2 : Nat) : Int)
  else -((q.1 / q.2 : Nat) : Int)

/-- The fields of `UploadResp` that `Put` reads. -/
structure UploadResp where
  /-- Value of `len(resp.PartInfoList)` -/
  parts : Nat
  /-- Value of `resp.RapidUpload` -/
  rapidUpload : Bool
  /-- Value of `resp.FileId` -/
  fileId : String
deriving DecidableEq, Repr

/-- What a `createWithFolders` call through `d.requestS` gives back to `Put`. -/
structure Outcome where
  /-- the returned `err` -/
  err : Option String
  /-- the returned `e.Code` -/
  code : String
  /-- the value decoded into `resp`, when the response carried one -/
  resp : Option UploadResp

/-- What the `complete` call gives back to `Put`. -/
structure CompleteOutcome where
  err : Option String
  code : String
  /-- the entry `file_id` of `resp2`, when there is one -/
  fileId : Option String
  /-- the text of `resp2` used for the final error -/
  text : String

/-- The answers during the transfer of one part. -/
structure PartPut where
  /-- error of `http.NewRequest` -/
  requestErr : Option String
  /-- error of `base.HttpClient.Do` -/
  doErr : Option String

/-- Calls made by `Put`, in the order they are made. -/
inductive PutEvent
  | seek
  | create (preHash contentHash : Bool)
  | hashFile
  | createTemp
  | put (i : Nat) (internal : Bool)
  | up (v : ℚ)
  | complete
deriving DecidableEq

/-- Inputs of one run of `Put`. -/
structure PutEnv where
  /-- Value of `streamer.GetSize()` -/
  size : Int
  /-- Value of `d.RapidUpload` -/
  rapidUpload : Bool
  /-- Value of `d.InternalUpload` -/
  internalUpload : Bool
  /-- whether the stream is backed by a local file (`localFile != nil`, line 211) -/
  localFile : Bool
  /-- error of `localFile.Seek` at line 218 -/
  seekHeadErr : Option String
  /-- error of `utils.CopyWithCtx` (line 247 or 262) -/
  copyErr : Option String
  /-- error of `localFile.Seek` at line 250 -/
  seekHashErr : Option String
  /-- error of `os.CreateTemp` (line 254) -/
  createTempErr : Option String
  /-- error of `localFile.Seek` at line 297 -/
  seekRetryErr : Option String
  /-- the first `createWithFolders` call (line 237) -/
  create1 : Outcome
  /-- the second `createWithFolders` call (line 289) -/
  create2 : Outcome
  /-- value of `utils.IsCanceled(ctx)` at the check before part `k` -/
  canceled : Nat → Bool
  /-- Value of `ctx.Err()` -/
  ctxErr : String
  /-- answers during the transfer of part `k` -/
  part : Nat → PartPut
  /-- the `complete` call (line 326) -/
  complete : CompleteOutcome

/-- A finished run of `Put`: the returned error (`none` for `nil`) and the calls made. -/
structure PutRun where
  ret : Option String
  trace : List PutEvent

/-- Where `Put` stands before the part loop: it has returned, or it transfers the parts of
`resp`. -/
inductive PutPhase
  | returned (r : PutRun)
  | transfer (resp : UploadResp) (trace : List PutEvent)

/-- Lines 243-301 of `Put`: the rapid-upload attempt after `PreHashMatched`. -/
def rapidPath (env : PutEnv) (resp1 : UploadResp) (tr : List PutEvent) : PutPhase :=
  let hashed : Option String × List PutEvent :=
    if env.localFile then
      match env.copyErr with
      | some e => (some e, tr ++ [PutEvent.hashFile])
      | none =>
        match env.seekHashErr with
        | some e => (some e, tr ++ [PutEvent.hashFile, PutEvent.seek])
        | none => (none, tr ++ [PutEvent.hashFile, PutEvent.seek])
    else
      match env.createTempErr with
      | some e => (some e, tr ++ [PutEvent.createTemp])
      | none =>
        match env.copyErr with
        | some e => (some e, tr ++ [PutEvent.createTemp, PutEvent.hashFile])
        | none => (none, tr ++ [PutEvent.createTemp, PutEvent.hashFile])
  match hashed with
  | (some e, tr1) => PutPhase.returned ⟨some e, tr1⟩
  | (none, tr1) =>
    let tr2 := tr1 ++ [PutEvent.create false true]
    let resp := env.create2.resp.getD resp1
    if env.create2.err ≠ none ∧ env.create2.code ≠ "PreHashMatched" then
      PutPhase.returned ⟨env.create2.err, tr2⟩
    else if resp.rapidUpload then PutPhase.returned ⟨none, tr2⟩
    else
      match env.seekRetryErr with
      | some e => PutPhase.returned ⟨some e, tr2 ++ [PutEvent.seek]⟩
      | none => PutPhase.transfer resp (tr2 ++ [PutEvent.seek])

/-- Lines 186-301 of `Put`: everything before the part loop. -/
def putPrelude (env : PutEnv) : PutPhase :=
  let head : Option String × List PutEvent :=
    if env.rapidUpload ∧ env.localFile then (env.seekHeadErr, [PutEvent.seek]) else (none, [])
  match head with
  | (some e, tr0) => PutPhase.returned ⟨some e, tr0⟩
  | (none, tr0) =>
    let tr1 := tr0 ++ [PutEvent.create env.rapidUpload false]
    let resp1 := env.create1.resp.getD ⟨0, false, ""⟩
    if env.create1.err ≠ none ∧ env.create1.code ≠ "PreHashMatched" then
      PutPhase.returned ⟨env.create1.err, tr1⟩
    else if env.rapidUpload ∧ env.create1.code = "PreHashMatched" then rapidPath env resp1 tr1
    else PutPhase.transfer resp1 tr1

/-- The part loop of `Put` (lines 303-324) over `n` remaining parts from index `i`: the error
it returns with (`none` when it runs to its end) and the calls it makes. -/
def putLoop (env : PutEnv) (cnt : Int) : Nat → Nat → Option String × List PutEvent
  | 0, _ => (none, [])
  | n + 1, i =>
    if env.canceled i then (some env.ctxErr, [])
    else
      match (env.part i).requestErr with
      | some e => (some e, [])
      | none =>
        match (env.part i).doErr with
        | some e => (some e, [PutEvent.put i env.internalUpload])
        | none =>
          let evs : List PutEvent :=
            if cnt > 0 then
              [PutEvent.put i env.internalUpload, PutEvent.up ((i : ℚ) * 100 / (cnt : ℚ))]
            else [PutEvent.put i env.internalUpload]
          ((putLoop env cnt n (i + 1)).1, evs ++ (putLoop env cnt n (i + 1)).2)

/-- Model of `AliDrive.Put` (`driver.go` lines 186-338). -/
def Put (env : PutEnv) : PutRun :=
  match putPrelude env with
  | PutPhase.returned r => r
  | PutPhase.transfer resp tr =>
    match putLoop env (count env.size) resp.parts 0 with
    | (some e, evs) => ⟨some e, tr ++ evs⟩
    | (none, evs) =>
      let tr2 := tr ++ evs ++ [PutEvent.complete]
      if env.complete.err ≠ none ∧ env.complete.code ≠ "PreHashMatched" then
        ⟨env.complete.err, tr2⟩
      else if env.complete.fileId = some resp.fileId then ⟨none, tr2⟩
      else ⟨some env.complete.text, tr2⟩

/-- The values passed to the progress callback `up`, in order. -/
def putProgress (tr : List PutEvent) : List ℚ :=
  tr.filterMap (fun e => match e with
    | PutEvent.up v => some v
    | _ => none)

/-- The part transfers, in order. -/
def transfers (tr : List PutEvent) : List Nat :=
  tr.filterMap (fun e => match e with
    | PutEvent.put i _ => some i
    | _ => none)

/-- What holds of every call made before the part loop: it is no part transfer, no progress
report and not the completion request. -/
def preludeEvent (e : PutEvent) : Prop :=
  match e with
  | PutEvent.put _ _ => False
  | PutEvent.up _ => False
  | PutEvent.complete => False
  | _ => True

/-- The calls made before the part loop. -/
def PutPhase.trace : PutPhase → List PutEvent
  | PutPhase.returned r => r.trace
  | PutPhase.transfer _ tr => tr

/-- A one-byte stream for which the server returns a `part_info_list` of three entries. -/
def envLongList : PutEnv where
  size := 1
  rapidUpload := false
  internalUpload := false
  localFile := false
  seekHeadErr := none
  copyErr := none
  seekHashErr := none
  createTempErr := none
  seekRetryErr := none
  create1 := ⟨none, "", some ⟨3, false, "f1"⟩⟩
  create2 := ⟨none, "", none⟩
  canceled := fun _ => false
  ctxErr := "context canceled"
  part := fun _ => ⟨none, none⟩
  complete := ⟨none, "", some "f1", ""⟩

/-- A 25 MB stream without rapid upload: the server returns the three parts requested, and
cancellation is first observed at the check before part 1. -/
def envThreeParts : PutEnv where
  size := 26214400
  rapidUpload := false
  internalUpload := false
  localFile := false
  seekHeadErr := none
  copyErr := none
  seekHashErr := none
  createTempErr := none
  seekRetryErr := none
  create1 := ⟨none, "", some ⟨3, false, "f1"⟩⟩
  create2 := ⟨none, "", none⟩
  canceled := fun k => decide (1 ≤ k)
  ctxErr := "context canceled"
  part := fun _ => ⟨none, none⟩
  complete := ⟨none, "", some "f1", ""⟩

/-- A stream whose pre-hash matches and whose content hash is accepted as a rapid upload. -/
def envRapid : PutEnv where
  size := 26214400
  rapidUpload := true
  internalUpload := false
  localFile := true
  seekHeadErr := none
  copyErr := none
  seekHashErr := none
  createTempErr := none
  seekRetryErr := none
  create1 := ⟨some "rejected: PreHashMatched", "PreHashMatched", none⟩
  create2 := ⟨none, "", some ⟨0, true, "f1"⟩⟩
  canceled := fun _ => false
  ctxErr := "context canceled"
  part := fun _ => ⟨none, none⟩
  complete := ⟨none, "", some "f1", ""⟩

/-- A server that answers every request with `DeviceSessionSignatureInvalid`, while every hook
call succeeds. -/
def envSessionInvalid : Env where
  userID := "u"
  loaded := true
  server := fun _ => codeResponse "DeviceSessionSignatureInvalid"
  token := fun _ => okToken
  getSignErr := fun _ => none
  securityHeaderErr := fun _ => none

/-- The calls `request` makes on `url` when every answer is `DeviceSessionSignatureInvalid`:
the original request, then three rounds of signing and session creation, then a last signing. -/
def exhaustedRepair (url : String) : List Event :=
  [Event.execute url,
   Event.sign, Event.getSign, Event.generateSecurityHeader createSessionUrl,
   Event.execute createSessionUrl,
   Event.sign, Event.getSign, Event.generateSecurityHeader createSessionUrl,
   Event.execute createSessionUrl,
   Event.sign, Event.getSign, Event.generateSecurityHeader createSessionUrl,
   Event.execute createSessionUrl,
   Event.sign]

/-- Value of one hexadecimal digit (`0-9`, `a-f`, `A-F`), as `big.Int.SetString` in base 16
reads it. -/
def hexDigit (c : Char) : Option Nat :=
  let n := c.toNat
  if 48 ≤ n ∧ n ≤ 57 then some (n - 48)
  else if 97 ≤ n ∧ n ≤ 102 then some (n - 87)
  else if 65 ≤ n ∧ n ≤ 70 then some (n - 55)
  else none

/-- The number denoted by a list of hexadecimal digits, read from the left onto `acc`. -/
def hexValue : Nat → List Char → Option Nat
  | acc, [] => some acc
  | acc, c :: cs =>
    match hexDigit c with
    | none => none
    | some d => hexValue (acc * 16 + d) cs

/-- The call `new(big.Int).SetString(s, 16)` on a string of digits: `none` stands for the nil
result of a string that is empty or holds another character. -/
def setString16 (cs : List Char) : Option Nat :=
  match cs with
  | [] => none
  | _ :: _ => hexValue 0 cs

/-- The largest `int64`. -/
def maxInt64 : Int := 2 ^ 63 - 1

/-- The bytes returned by `io.NewSectionReader(localFile, off, n).Read(p)` for a buffer `p` of
`plen` bytes over a file holding `content`: the section ends at `off + n`, or at the largest
`int64` when that sum overflows. -/
def sectionRead (content : List Nat) (off n : Int) (plen : Nat) : List Nat :=
  let limit := if off ≤ maxInt64 - n then off + n else maxInt64
  if off ≥ limit then []
  else if off < 0 then []
  else (content.drop off.toNat).take (min (plen : Int) (limit - off)).toNat

/-- The proof offset `o.Int64()` of `Put` (`driver.go` lines 280-286) from the digest
`utils.GetMD5EncodeStr(d.getAccessToken())` and `file.GetSize()`; `none` stands for a run-time
panic (a digest shorter than 16 bytes, or a nil `r` used with a positive size). -/
def proofOffset (digest : String) (size : Int) : Option Int :=
  if digest.length < 16 then none
  else
    match setString16 (digest.toList.take 16) with
    | none => if size > 0 then none else some 0
    | some r => some (Open123.wrap64 (if size > 0 then (r : Int) % size else 0))

/-- The value of `reqBody["proof_code"]` (`driver.go` lines 279-287): `encode` is
`base64.StdEncoding.EncodeToString`, `content` the bytes of `localFile`. -/
def proofCode (encode : List Nat → String) (digest : String) (size : Int)
    (content : List Nat) : Option String :=
  (proofOffset digest size).map (fun o => encode (sectionRead content o 8 8))

/-- The hexadecimal MD5 digest of the empty string. -/
def md5OfEmpty : String := "d41d8cd98f00b204e9800998ecf8427e"

/-- A stand-in for the encoder in examples: the bytes read as characters. -/
def byteText (bs : List Nat) : String :=
  String.mk (bs.map Char.ofNat)

/-- A 25 MB stream without rapid upload: the server returns the three parts requested and
every part is transferred. -/
def envAllParts : PutEnv where
  size := 26214400
  rapidUpload := false
  internalUpload := false
  localFile := false
  seekHeadErr := none
  copyErr := none
  seekHashErr := none
  createTempErr := none
  seekRetryErr := none
  create1 := ⟨none, "", some ⟨3, false, "f1"⟩⟩
  create2 := ⟨none, "", none⟩
  canceled := fun _ => false
  ctxErr := "context canceled"
  part := fun _ => ⟨none, none⟩
  complete := ⟨none, "", some "f1", ""⟩

end AliDrive

namespace Open123

theorem wrap64_of_range (x : Int) (h1 : -(2 ^ 63) ≤ x) (h2 : x < 2 ^ 63) : wrap64 x = x := by
  unfold wrap64
  omega

theorem uploadNums_eq (S P : Int) (hS : 0 ≤ S) (hP : 1 ≤ P) (hrep : S + P - 1 < 2 ^ 63) :
    uploadNums S P = (S + P - 1) / P := by
  have h1 : wrap64 (wrap64 (S + P) - 1) = S + P - 1 := by
    unfold wrap64
    omega
  have h2 : 0 ≤ S + P - 1 := by omega
  have h3 : (S + P - 1) / P ≤ S + P - 1 := Int.ediv_le_self _ h2
  have h4 : 0 ≤ (S + P - 1) / P := Int.ediv_nonneg h2 (by omega)
  unfold uploadNums
  rw [h1, Int.tdiv_eq_ediv h2 (by omega)]
  exact wrap64_of_range _ (by omega) (by omega)

theorem dispatched_append (a b : List Event) :
    dispatched (a ++ b) = dispatched a ++ dispatched b := by
  simp [dispatched, List.filterMap_append]

theorem dispatched_partAttempt (p : PartTask) (n : Int) (s : Nat) (r : Bool) (a : Attempt) :
    dispatched (partAttempt p n s r a).events = [] := by
  unfold partAttempt
  cases r <;> cases a.sectionErr <;> cases a.urlErr <;> cases a.requestErr <;>
    cases a.doErr <;> simp [dispatched]

theorem dispatched_retryDo (f : Nat → Bool → AttemptResult)
    (hf : ∀ k r, dispatched (f k r).events = []) (n k : Nat) (r : Bool) (evs : List Event) :
    dispatched (retryDo f n k r evs).events = dispatched evs := by
  induction n generalizing k r evs with
  | zero => simp [retryDo]
  | succ n ih =>
    unfold retryDo
    simp only
    cases hE : (f k r).err with
    | none => simp [dispatched_append, hf]
    | some e =>
      by_cases hn : n = 0
      · simp [hn, dispatched_append, hf]
      · simp [hn, ih, dispatched_append, hf]

theorem dispatched_goWithResult (g : Group) (p : PartTask) (n : Int) (att : Nat → Attempt) :
    dispatched (goWithResult g p n att).trace = dispatched g.trace ++ [p] := by
  have h := dispatched_retryDo (fun k reader => partAttempt p n g.success reader (att k))
    (fun k r => dispatched_partAttempt p n g.success r (att k)) 3 0 false []
  unfold goWithResult
  simp only
  split <;> simp only [dispatched_append, h] <;> simp [dispatched]

theorem partLoop_dispatched (env : UploadEnv) (nums : Int) (hN : nums < 2 ^ 63)
    (hcancel : ∀ k, env.canceled k = false) (n : Nat) (i : Nat) (g : Group)
    (hi : (i : Int) + n = nums) :
    dispatched (partLoop env nums n i g).1.trace
      = dispatched g.trace ++ (List.range' i n).map (fun k : Nat => mkPart env.size env.sliceSize (k : Int))
    ∧ (partLoop env nums n i g).2 = false := by
  induction n generalizing i g with
  | zero => simp [partLoop]
  | succ n ih =>
    have hlt : (i : Int) < nums := by omega
    have hw : wrap64 ((i : Int) + 1) = ((i + 1 : Nat) : Int) := by
      rw [wrap64_of_range _ (by omega) (by omega)]
      push_cast
      rfl
    have hstep := ih (i + 1)
      (goWithResult g (mkPart env.size env.sliceSize i) nums (env.attempt i))
      (by push_cast; omega)
    unfold partLoop
    simp only [hlt, if_true, hcancel, Int.toNat_ofNat, hw, Bool.false_eq_true, if_false]
    refine ⟨?_, hstep.2⟩
    rw [hstep.1, dispatched_goWithResult, List.range'_succ]
    simp

theorem ceil_div_eq (S P : Int) (hP : 1 ≤ P) :
    Int.ceil ((S : ℚ) / (P : ℚ)) = (S + P - 1) / P := by
  have hPq : (0 : ℚ) < (P : ℚ) := by exact_mod_cast (by omega : (0 : Int) < P)
  have h1 : (S + P - 1) / P * P ≤ S + P - 1 := Int.ediv_mul_le _ (by omega)
  have h2 : S + P - 1 < ((S + P - 1) / P + 1) * P := Int.lt_ediv_add_one_mul_self _ (by omega)
  rw [Int.ceil_eq_iff]
  constructor
  · rw [lt_div_iff₀ hPq]
    have : ((S + P - 1) / P - 1) * P < S := by linarith
    exact_mod_cast this
  · rw [div_le_iff₀ hPq]
    have : S ≤ (S + P - 1) / P * P := by linarith
    exact_mod_cast this

theorem mul_le_of_lt_nums (S P k : Int) (hP : 1 ≤ P) (hk : k < (S + P - 1) / P) :
    k * P + 1 ≤ S := by
  have h1 : (S + P - 1) / P * P ≤ S + P - 1 := Int.ediv_mul_le _ (by omega)
  have h2 : (k + 1) * P ≤ (S + P - 1) / P * P :=
    mul_le_mul_of_nonneg_right (by omega) (by omega)
  linarith

theorem mkPart_eq (S P k : Int) (hP : 1 ≤ P) (hrep : S + P - 1 < 2 ^ 63)
    (hk0 : 0 ≤ k) (hk : k < (S + P - 1) / P) :
    mkPart S P k = ⟨k, k + 1, k * P, min P (S - k * P)⟩ := by
  have h1 := mul_le_of_lt_nums S P k hP hk
  have h0 : 0 ≤ k * P := mul_nonneg hk0 (by omega)
  have hkk : k ≤ k * P := le_mul_of_one_le_right hk0 hP
  unfold mkPart
  simp only
  rw [wrap64_of_range (k * P) (by omega) (by omega), wrap64_of_range (k + 1) (by omega) (by omega),
    wrap64_of_range (S - k * P) (by omega) (by omega)]

theorem sum_part_sizes (S P : Int) (hS : 0 ≤ S) (hP : 1 ≤ P) (n : Nat) (hn : (n : Int) ≤ (S + P - 1) / P) :
    ((List.range n).map (fun i : Nat => min P (S - (i : Int) * P))).sum = min ((n : Int) * P) S := by
  induction n with
  | zero => simpa using hS
  | succ n ih =>
    have hlt : (n : Int) < (S + P - 1) / P := by push_cast at hn; omega
    have h1 := mul_le_of_lt_nums S P n hP hlt
    rw [List.range_succ, List.map_append, List.sum_append, ih (by omega)]
    simp only [List.map_cons, List.map_nil, List.sum_cons, List.sum_nil, add_zero]
    have e : ((n + 1 : Nat) : Int) * P = (n : Int) * P + P := by push_cast; ring
    rw [e]
    omega

theorem uploadParts_dispatched (env : UploadEnv) (hS : 0 ≤ env.size) (hP : 1 ≤ env.sliceSize)
    (hrep : env.size + env.sliceSize - 1 < 2 ^ 63) (hreader : env.readerErr = none)
    (hcancel : ∀ k, env.canceled k = false) :
    dispatched (uploadParts env).trace
      = (List.range ((env.size + env.sliceSize - 1) / env.sliceSize).toNat).map
          (fun i : Nat => mkPart env.size env.sliceSize (i : Int)) := by
  have hnum := uploadNums_eq env.size env.sliceSize hS hP hrep
  have h0 : 0 ≤ (env.size + env.sliceSize - 1) / env.sliceSize :=
    Int.ediv_nonneg (by omega) (by omega)
  have hle : (env.size + env.sliceSize - 1) / env.sliceSize ≤ env.size + env.sliceSize - 1 :=
    Int.ediv_le_self _ (by omega)
  have hloop := partLoop_dispatched env ((env.size + env.sliceSize - 1) / env.sliceSize)
    (by omega) hcancel ((env.size + env.sliceSize - 1) / env.sliceSize).toNat 0
    ⟨0, none, [Event.newGroup (min ((env.size + env.sliceSize - 1) / env.sliceSize)
      env.uploadThread)]⟩ (by simp [Int.toNat_of_nonneg h0])
  have hne : env.sliceSize ≠ 0 := by omega
  unfold uploadParts
  simp only [hne, if_false, hreader, hnum]
  rcases hres : partLoop env ((env.size + env.sliceSize - 1) / env.sliceSize)
    ((env.size + env.sliceSize - 1) / env.sliceSize).toNat 0
    ⟨0, none, [Event.newGroup (min ((env.size + env.sliceSize - 1) / env.sliceSize)
      env.uploadThread)]⟩ with ⟨g, b⟩
  have hl1 := hloop.1
  have hl2 := hloop.2
  simp only [Nat.cast_zero] at hl1 hl2
  rw [hres] at hl1 hl2
  simp only at hl1 hl2
  subst hl2
  have hg : dispatched g.trace = (List.range ((env.size + env.sliceSize - 1) / env.sliceSize).toNat).map
      (fun i : Nat => mkPart env.size env.sliceSize (i : Int)) := by
    rw [hl1, List.range_eq_range']
    simp [dispatched]
  cases hfe : g.firstErr <;> simp only [hfe, Phase.trace] <;> exact hg

/-- C1: for a stream of size `S ≥ 0` and a slice size `P ≥ 1` with `S + P - 1` representable
as `int64`, a run of the part loop that is not cancelled hands exactly `N = ⌈S / P⌉` parts to the
group; part `i` has index `i`, number `i + 1`, offset `i * P` and length `min P (S - i * P)`.
Every length is positive, part `i + 1` starts where part `i` ends, part `0` starts at `0`, the
last part ends at `S`, the lengths sum to `S`, and every byte of `[0, S)` lies in exactly one
part. -/
theorem upload_parts_partition (env : UploadEnv) (S P : Int)
    (hsize : env.size = S) (hslice : env.sliceSize = P)
    (hS : 0 ≤ S) (hP : 1 ≤ P) (hrep : S + P - 1 < 2 ^ 63)
    (hreader : env.readerErr = none) (hcancel : ∀ k, env.canceled k = false) :
    dispatched (uploadParts env).trace
        = (List.range (Int.ceil ((S : ℚ) / (P : ℚ))).toNat).map
            (fun i : Nat => (⟨i, i + 1, i * P, min P (S - i * P)⟩ : PartTask))
    ∧ (∀ i : Nat, (i : Int) < Int.ceil ((S : ℚ) / (P : ℚ)) → 0 < min P (S - i * P))
    ∧ (∀ i : Nat, (i : Int) + 1 < Int.ceil ((S : ℚ) / (P : ℚ)) →
        ((i + 1 : Nat) : Int) * P = i * P + min P (S - i * P))
    ∧ ((0 : Nat) : Int) * P = 0
    ∧ (∀ i : Nat, (i : Int) + 1 = Int.ceil ((S : ℚ) / (P : ℚ)) →
        (i : Int) * P + min P (S - i * P) = S)
    ∧ ((dispatched (uploadParts env).trace).map PartTask.size).sum = S
    ∧ (∀ b : Int, 0 ≤ b → b < S →
        ∃! i : Nat, (i : Int) < Int.ceil ((S : ℚ) / (P : ℚ))
          ∧ (i : Int) * P ≤ b ∧ b < i * P + min P (S - i * P)) := by
  subst hsize hslice
  have hd := uploadParts_dispatched env hS hP hrep hreader hcancel
  rw [ceil_div_eq env.size env.sliceSize hP]
  have h0 : 0 ≤ (env.size + env.sliceSize - 1) / env.sliceSize :=
    Int.ediv_nonneg (by omega) (by omega)
  have h1 : (env.size + env.sliceSize - 1) / env.sliceSize * env.sliceSize
      ≤ env.size + env.sliceSize - 1 := Int.ediv_mul_le _ (by omega)
  have h2 : env.size + env.sliceSize - 1
      < ((env.size + env.sliceSize - 1) / env.sliceSize + 1) * env.sliceSize :=
    Int.lt_ediv_add_one_mul_self _ (by omega)
  have hL : dispatched (uploadParts env).trace
      = (List.range ((env.size + env.sliceSize - 1) / env.sliceSize).toNat).map
          (fun i : Nat => (⟨i, i + 1, i * env.sliceSize,
            min env.sliceSize (env.size - i * env.sliceSize)⟩ : PartTask)) := by
    rw [hd]
    apply List.map_congr_left
    intro i hi
    rw [List.mem_range] at hi
    exact mkPart_eq _ _ _ hP hrep (by omega) (by omega)
  refine ⟨hL, ?_, ?_, by simp, ?_, ?_, ?_⟩
  · intro i hi
    have := mul_le_of_lt_nums env.size env.sliceSize i hP hi
    omega
  · intro i hi
    have := mul_le_of_lt_nums env.size env.sliceSize (i + 1) hP hi
    push_cast
    have e : ((i : Int) + 1) * env.sliceSize = i * env.sliceSize + env.sliceSize := by ring
    rw [e] at this ⊢
    omega
  · intro i hi
    have := mul_le_of_lt_nums env.size env.sliceSize i hP (by omega)
    rw [← hi] at h2
    have e : ((i : Int) + 1 + 1) * env.sliceSize
        = i * env.sliceSize + env.sliceSize + env.sliceSize := by ring
    rw [e] at h2
    omega
  · rw [hL, List.map_map]
    have hs := sum_part_sizes env.size env.sliceSize hS hP
      ((env.size + env.sliceSize - 1) / env.sliceSize).toNat (by omega)
    have hc : (fun i : Nat => min env.sliceSize (env.size - (i : Int) * env.sliceSize))
        = PartTask.size ∘ (fun i : Nat => (⟨i, i + 1, i * env.sliceSize,
            min env.sliceSize (env.size - i * env.sliceSize)⟩ : PartTask)) := rfl
    rw [← hc, hs, Int.toNat_of_nonneg h0]
    have e3 : ((env.size + env.sliceSize - 1) / env.sliceSize + 1) * env.sliceSize
        = (env.size + env.sliceSize - 1) / env.sliceSize * env.sliceSize + env.sliceSize := by
      ring
    rw [e3] at h2
    exact min_eq_right (by omega)
  · intro b hb0 hbS
    have hq0 : 0 ≤ b / env.sliceSize := Int.ediv_nonneg hb0 (by omega)
    have hq1 : b / env.sliceSize * env.sliceSize ≤ b := Int.ediv_mul_le _ (by omega)
    have hq2 : b < (b / env.sliceSize + 1) * env.sliceSize :=
      Int.lt_ediv_add_one_mul_self _ (by omega)
    have e2 : (b / env.sliceSize + 1) * env.sliceSize
        = b / env.sliceSize * env.sliceSize + env.sliceSize := by ring
    rw [e2] at hq2
    refine ⟨(b / env.sliceSize).toNat, ⟨?_, ?_, ?_⟩, ?_⟩
    · rw [Int.toNat_of_nonneg hq0]
      by_contra hge
      have : (env.size + env.sliceSize - 1) / env.sliceSize * env.sliceSize
          ≤ b / env.sliceSize * env.sliceSize :=
        mul_le_mul_of_nonneg_right (by omega) (by omega)
      have e3 : ((env.size + env.sliceSize - 1) / env.sliceSize + 1) * env.sliceSize
          = (env.size + env.sliceSize - 1) / env.sliceSize * env.sliceSize + env.sliceSize := by
        ring
      rw [e3] at h2
      omega
    · rw [Int.toNat_of_nonneg hq0]
      exact hq1
    · rw [Int.toNat_of_nonneg hq0]
      omega
    · rintro j ⟨_, hj1, hj2⟩
      have hj3 : b < ((j : Int) + 1) * env.sliceSize := by
        have e4 : ((j : Int) + 1) * env.sliceSize = j * env.sliceSize + env.sliceSize := by ring
        rw [e4]
        omega
      have ha : (j : Int) ≤ b / env.sliceSize :=
        (Int.le_ediv_iff_mul_le (by omega)).mpr hj1
      have hb : b / env.sliceSize < (j : Int) + 1 :=
        (Int.ediv_lt_iff_lt_mul (by omega)).mpr hj3
      omega

/-- Witness of C1: 25 MB in slices of 10 MB gives three parts of 10 MB, 10 MB and 5 MB. -/
theorem upload_parts_partition_witness :
    (dispatched (uploadParts env25MB).trace).map PartTask.size
      = [10485760, 10485760, 5242880] := by
  have h := (upload_parts_partition env25MB 26214400 10485760 rfl rfl (by decide) (by decide)
    (by decide) rfl (fun _ => rfl)).1
  have hc : Int.ceil (((26214400 : Int) : ℚ) / ((10485760 : Int) : ℚ)) = 3 := by
    rw [Int.ceil_eq_iff]
    norm_num
  rw [h, hc]
  decide

theorem wrap64_bounds (x : Int) : -(2 ^ 63) ≤ wrap64 x ∧ wrap64 x < 2 ^ 63 := by
  unfold wrap64
  omega

theorem partAttempt_partEvent (p : PartTask) (n : Int) (s : Nat) (r : Bool) (a : Attempt)
    (hs : (s : Int) < n) : ∀ e ∈ (partAttempt p n s r a).events, partEvent e := by
  have hq : (10 : ℚ) + 85 * (s : ℚ) / (n : ℚ) ≤ 95 := by
    have hn : (0 : ℚ) < (n : ℚ) := by
      have : (0 : Int) < n := by omega
      exact_mod_cast this
    have hsn : (s : ℚ) ≤ (n : ℚ) := by
      have : ((s : Int) : ℚ) ≤ (n : ℚ) := by exact_mod_cast hs.le
      simpa using this
    have : 85 * (s : ℚ) / (n : ℚ) ≤ 85 := by
      rw [div_le_iff₀ hn]
      linarith
    linarith
  unfold partAttempt
  cases r <;> cases a.sectionErr <;> cases a.urlErr <;> cases a.requestErr <;>
    cases a.doErr <;> simp [partEvent, hq]

theorem retryDo_partEvent (f : Nat → Bool → AttemptResult)
    (hf : ∀ k r, ∀ e ∈ (f k r).events, partEvent e) (n k : Nat) (r : Bool) (evs : List Event)
    (hevs : ∀ e ∈ evs, partEvent e) : ∀ e ∈ (retryDo f n k r evs).events, partEvent e := by
  induction n generalizing k r evs with
  | zero => simpa [retryDo] using hevs
  | succ n ih =>
    have happ : ∀ e ∈ evs ++ (f k r).events, partEvent e := by
      intro e he
      rcases List.mem_append.mp he with h | h
      · exact hevs e h
      · exact hf k r e h
    unfold retryDo
    simp only
    cases hE : (f k r).err with
    | none => exact happ
    | some e =>
      by_cases hn : n = 0
      · simpa [hn] using happ
      · simp only [hn, if_false]
        exact ih _ _ _ happ

theorem goWithResult_partEvent (g : Group) (p : PartTask) (n : Int) (att : Nat → Attempt)
    (hs : (g.success : Int) < n) (hg : ∀ e ∈ g.trace, partEvent e) :
    (∀ e ∈ (goWithResult g p n att).trace, partEvent e)
      ∧ (goWithResult g p n att).success ≤ g.success + 1 := by
  have h := retryDo_partEvent (fun k reader => partAttempt p n g.success reader (att k))
    (fun k r => partAttempt_partEvent p n g.success r (att k) hs) 3 0 false [] (by simp)
  have htr : ∀ e ∈ g.trace ++ [Event.dispatch p]
      ++ (retryDo (fun k reader => partAttempt p n g.success reader (att k)) 3 0 false []).events
      ++ [Event.recycle p.partIndex], partEvent e := by
    intro e he
    simp only [List.mem_append, List.mem_singleton] at he
    rcases he with ((h1 | h1) | h1) | h1
    · exact hg e h1
    · subst h1; simp [partEvent]
    · exact h e h1
    · subst h1; simp [partEvent]
  unfold goWithResult
  simp only
  split
  · exact ⟨htr, le_refl _⟩
  · exact ⟨htr, Nat.le_succ _⟩

theorem partLoop_partEvent (env : UploadEnv) (nums : Int) (hN : nums < 2 ^ 63) (n : Nat)
    (i : Int) (hi0 : 0 ≤ i) (g : Group) (hs : (g.success : Int) ≤ i)
    (hg : ∀ e ∈ g.trace, partEvent e) :
    ∀ e ∈ (partLoop env nums n i g).1.trace, partEvent e := by
  induction n generalizing i g with
  | zero => simpa [partLoop] using hg
  | succ n ih =>
    unfold partLoop
    by_cases hlt : i < nums
    · simp only [hlt, if_true]
      cases hc : env.canceled i.toNat
      · simp only [Bool.false_eq_true, if_false]
        have hw : wrap64 (i + 1) = i + 1 := wrap64_of_range _ (by omega) (by omega)
        have hgo := goWithResult_partEvent g (mkPart env.size env.sliceSize i) nums
          (env.attempt i.toNat) (by omega) hg
        rw [hw]
        exact ih (i + 1) (by omega) _ (by have := hgo.2; omega) hgo.1
      · simpa using hg
    · simpa [hlt] using hg

theorem uploadParts_partEvent (env : UploadEnv) :
    ∀ e ∈ (uploadParts env).trace, partEvent e := by
  have hb := wrap64_bounds (Int.tdiv (wrap64 (wrap64 (env.size + env.sliceSize) - 1)) env.sliceSize)
  have hloop := partLoop_partEvent env (uploadNums env.size env.sliceSize) hb.2
    (uploadNums env.size env.sliceSize).toNat 0 (le_refl _)
    ⟨0, none, [Event.newGroup (min (uploadNums env.size env.sliceSize) env.uploadThread)]⟩
    (by simp) (by simp [partEvent])
  unfold uploadParts
  by_cases h0 : env.sliceSize = 0
  · simp [h0, Phase.trace]
  · simp only [h0, if_false]
    cases hr : env.readerErr with
    | some e => simp [Phase.trace, partEvent]
    | none =>
      simp only
      rcases hres : partLoop env (uploadNums env.size env.sliceSize)
        (uploadNums env.size env.sliceSize).toNat 0
        ⟨0, none, [Event.newGroup (min (uploadNums env.size env.sliceSize) env.uploadThread)]⟩
        with ⟨g, b⟩
      rw [hres] at hloop
      cases b
      · cases hfe : g.firstErr <;> simp only [hfe, Phase.trace] <;> exact hloop
      · exact hloop

theorem progress_le_of_partEvent (tr : List Event) (h : ∀ e ∈ tr, partEvent e) :
    ∀ v ∈ progress tr, v ≤ 95 := by
  intro v hv
  unfold progress at hv
  rw [List.mem_filterMap] at hv
  obtain ⟨e, he, hev⟩ := hv
  have hp := h e he
  cases e <;> simp at hev
  subst hev
  simpa [partEvent] using hp

theorem polls_eq_zero_of_partEvent (tr : List Event) (h : ∀ e ∈ tr, partEvent e) :
    polls tr = 0 := by
  unfold polls
  rw [List.count_eq_zero]
  intro hmem
  simpa [partEvent] using h _ hmem

theorem complete_not_mem_of_partEvent (tr : List Event) (h : ∀ e ∈ tr, partEvent e) :
    Event.complete ∉ tr := by
  intro hmem
  simpa [partEvent] using h _ hmem

theorem partLoop_cancel (env : UploadEnv) (nums : Int) (hN : nums < 2 ^ 63) (k : Nat)
    (hk : (k : Int) < nums) (hck : env.canceled k = true) (n : Nat) (i : Nat) (g : Group)
    (hi : (i : Int) + n = nums) (hik : i ≤ k)
    (hbefore : ∀ j, i ≤ j → j < k → env.canceled j = false) :
    (partLoop env nums n i g).2 = true
    ∧ dispatched (partLoop env nums n i g).1.trace
        = dispatched g.trace
          ++ (List.range' i (k - i)).map (fun j : Nat => mkPart env.size env.sliceSize (j : Int)) := by
  induction n generalizing i g with
  | zero => omega
  | succ n ih =>
    have hlt : (i : Int) < nums := by omega
    unfold partLoop
    simp only [hlt, if_true, Int.toNat_ofNat]
    by_cases hik2 : i = k
    · subst hik2
      simp [hck]
    · have hci : env.canceled i = false := hbefore i (le_refl _) (by omega)
      have hw : wrap64 ((i : Int) + 1) = ((i + 1 : Nat) : Int) := by
        rw [wrap64_of_range _ (by omega) (by omega)]
        push_cast
        rfl
      have hstep := ih (i + 1)
        (goWithResult g (mkPart env.size env.sliceSize i) nums (env.attempt i))
        (by push_cast; omega) (by omega) (fun j h1 h2 => hbefore j (by omega) h2)
      simp only [hci, Bool.false_eq_true, if_false, hw]
      refine ⟨hstep.1, ?_⟩
      rw [hstep.2, dispatched_goWithResult]
      have hr : k - i = (k - (i + 1)) + 1 := by omega
      rw [hr, List.range'_succ]
      simp

theorem uploadParts_cancel (env : UploadEnv) (k : Nat) (h0 : env.sliceSize ≠ 0)
    (hreader : env.readerErr = none) (hk : (k : Int) < uploadNums env.size env.sliceSize)
    (hck : env.canceled k = true) (hbefore : ∀ j, j < k → env.canceled j = false) :
    ∃ tr, uploadParts env = Phase.returned ⟨Ret.error env.ctxErr, tr⟩
      ∧ dispatched tr
          = (List.range k).map (fun j : Nat => mkPart env.size env.sliceSize (j : Int))
      ∧ Event.complete ∉ tr := by
  have hb := wrap64_bounds (Int.tdiv (wrap64 (wrap64 (env.size + env.sliceSize) - 1)) env.sliceSize)
  have hnn : 0 ≤ uploadNums env.size env.sliceSize := by omega
  have hloop := partLoop_cancel env (uploadNums env.size env.sliceSize) hb.2 k hk hck
    (uploadNums env.size env.sliceSize).toNat 0
    ⟨0, none, [Event.newGroup (min (uploadNums env.size env.sliceSize) env.uploadThread)]⟩
    (by simp [Int.toNat_of_nonneg hnn]) (Nat.zero_le _) (fun j _ h => hbefore j h)
  have hev := uploadParts_partEvent env
  unfold uploadParts at hev ⊢
  simp only [h0, if_false, hreader] at hev ⊢
  rcases hres : partLoop env (uploadNums env.size env.sliceSize)
    (uploadNums env.size env.sliceSize).toNat 0
    ⟨0, none, [Event.newGroup (min (uploadNums env.size env.sliceSize) env.uploadThread)]⟩
    with ⟨g, b⟩
  simp only [Nat.cast_zero] at hloop
  rw [hres] at hloop hev
  obtain ⟨hb2, hd⟩ := hloop
  simp only at hb2 hd
  subst hb2
  simp only [Phase.trace] at hev
  refine ⟨g.trace, rfl, ?_, complete_not_mem_of_partEvent _ hev⟩
  rw [hd, List.range_eq_range']
  simp [dispatched]

theorem pollLoop_prefix (asyncResp : Nat → Except String Bool) (m : Nat) (f k0 : Nat)
    (tr : List Event) (hfalse : ∀ j, j < m → asyncResp (k0 + j) = Except.ok false) :
    pollLoop asyncResp (m + f) k0 tr
      = pollLoop asyncResp f (k0 + m) (tr ++ List.replicate m Event.async) := by
  induction m generalizing k0 tr with
  | zero => simp
  | succ m ih =>
    have h0 : asyncResp k0 = Except.ok false := by simpa using hfalse 0 (Nat.succ_pos _)
    have e : m + 1 + f = (m + f) + 1 := by omega
    rw [e, pollLoop]
    simp only [h0]
    rw [ih (k0 + 1) _ (fun j hj => by
      have := hfalse (j + 1) (by omega)
      rwa [show k0 + (j + 1) = k0 + 1 + j by omega] at this)]
    rw [show k0 + 1 + m = k0 + (m + 1) by omega, List.replicate_succ]
    simp

theorem pollLoop_short (asyncResp : Nat → Except String Bool) (f k0 : Nat) (tr : List Event)
    (m : Nat) (hfm : f ≤ m) (hfalse : ∀ j, j < m → asyncResp (k0 + j) = Except.ok false) :
    pollLoop asyncResp f k0 tr = none := by
  induction f generalizing k0 tr m with
  | zero => rfl
  | succ f ih =>
    have h0 : asyncResp k0 = Except.ok false := by simpa using hfalse 0 (by omega)
    rw [pollLoop]
    simp only [h0]
    exact ih (k0 + 1) _ (m - 1) (by omega) (fun j hj => by
      have := hfalse (j + 1) (by omega)
      rwa [show k0 + (j + 1) = k0 + 1 + j by omega] at this)

theorem polls_append (a b : List Event) : polls (a ++ b) = polls a + polls b := by
  simp [polls, List.count_append]

theorem pollLoop_polls (asyncResp : Nat → Except String Bool) (f k0 : Nat) (tr : List Event)
    (run : Run) (h : pollLoop asyncResp f k0 tr = some run) : polls tr < polls run.trace := by
  induction f generalizing k0 tr with
  | zero => simp [pollLoop] at h
  | succ f ih =>
    rw [pollLoop] at h
    cases hr : asyncResp k0 with
    | error e =>
      simp only [hr, Option.some.injEq] at h
      subst h
      simp [polls_append, polls]
    | ok b =>
      cases b
      · simp only [hr] at h
        have := ih _ _ h
        simp only [polls_append] at this
        omega
      · simp only [hr, Option.some.injEq] at h
        subst h
        simp [polls_append, polls]

/-- C2 (what the code does): when the completion response is synchronous (`Async` false, or
`Completed` true), a run of `Upload` that returns `nil` has passed no value above 95 to the
progress callback `up`; in particular the last value passed is not 100. -/
theorem upload_sync_success_without_final_progress (fuel : Nat) (env : UploadEnv) (run : Run)
    (a c : Bool) (hrun : Upload fuel env = some run)
    (hresp : env.completeResp = Except.ok (a, c)) (hsync : a = false ∨ c = true)
    (hnil : run.ret = Ret.nil) :
    (∀ v ∈ progress run.trace, v ≤ 95) ∧ (progress run.trace).getLast? ≠ some 100 := by
  have hev := uploadParts_partEvent env
  have hall : ∀ v ∈ progress run.trace, v ≤ 95 := by
    unfold Upload at hrun
    cases hp : uploadParts env with
    | returned r =>
      simp only [hp, Option.some.injEq] at hrun
      subst hrun
      rw [hp] at hev
      exact progress_le_of_partEvent _ hev
    | waited tr =>
      simp only [hp] at hrun
      rw [hp] at hev
      unfold uploadFinish at hrun
      simp only [hresp, hsync, if_true, Option.some.injEq] at hrun
      subst hrun
      have hpr : progress (tr ++ [Event.complete]) = progress tr := by
        simp [progress, List.filterMap_append]
      rw [hpr]
      exact progress_le_of_partEvent _ hev
  refine ⟨hall, ?_⟩
  intro hlast
  have hmem : (100 : ℚ) ∈ progress run.trace := List.mem_of_getLast?_eq_some hlast
  have := hall 100 hmem
  norm_num at this

/-- Witness of C2: the 25 MB run with synchronous completion returns `nil`, and the last
value it passes to `up` is not 100. -/
theorem upload_sync_success_without_final_progress_witness :
    ∃ run, Upload 0 env25MB = some run ∧ run.ret = Ret.nil
      ∧ (progress run.trace).getLast? ≠ some 100 := by
  have hsome : (Upload 0 env25MB).isSome = true := by decide
  obtain ⟨run, hrun⟩ := Option.isSome_iff_exists.mp hsome
  have hret : (Upload 0 env25MB).map Run.ret = some Ret.nil := by decide
  have hnil : run.ret = Ret.nil := by
    rw [hrun] at hret
    simpa using hret
  exact ⟨run, hrun, hnil,
    (upload_sync_success_without_final_progress 0 env25MB run false true hrun rfl
      (Or.inl rfl) hnil).2⟩

/-- C3 (counterexample): an attempt whose PUT is answered with status 500 returns `nil`, so
it is not true that an attempt returns `nil` only on a 2xx status. -/
theorem part_attempt_non2xx_returns_nil :
    ¬ (∀ (p : PartTask) (n : Int) (s : Nat) (r : Bool) (a : Attempt),
        (partAttempt p n s r a).err = none → 200 ≤ a.status ∧ a.status < 300) := by
  intro h
  have h500 := h ⟨0, 1, 0, 10⟩ 1 0 false (okAttempt 500) rfl
  simp [okAttempt] at h500

/-- C3 (amended): an attempt of a part task returns `nil` exactly when the section reader is
bound or obtained, the URL fetch succeeds, the request is built and the PUT has no network
error; the status of the PUT response plays no part in the result. -/
theorem part_attempt_result (p : PartTask) (n : Int) (s : Nat) (r : Bool) (a : Attempt) :
    ((partAttempt p n s r a).err = none ↔
        (r = true ∨ a.sectionErr = none) ∧ a.urlErr = none ∧ a.requestErr = none
          ∧ a.doErr = none)
    ∧ ∀ status : Nat,
        (partAttempt p n s r ⟨a.sectionErr, a.urlErr, a.requestErr, a.doErr, status⟩).err
          = (partAttempt p n s r a).err := by
  constructor
  · unfold partAttempt
    cases r <;> cases a.sectionErr <;> cases a.urlErr <;> cases a.requestErr <;>
      cases a.doErr <;> simp
  · intro status
    rfl

theorem isWaited_iff (ph : Phase) : ph.isWaited = true → ∃ tr, ph = Phase.waited tr := by
  cases ph with
  | returned r => simp [Phase.isWaited]
  | waited tr => exact fun _ => ⟨tr, rfl⟩

/-- C8: after all parts have succeeded, the status endpoint is polled if and only if the
completion response has `Async = true` and `Completed = false`.  In that case, when the first
`k` polls answer `Completed = false` and poll `k + 1` answers `Completed = true`, `Upload`
returns `nil` after exactly `k + 1` polls (and has not returned after `k` polls or fewer); when
poll `k + 1` instead fails, `Upload` returns that error after `k + 1` polls. -/
theorem upload_async_polling (env : UploadEnv) (tr : List Event)
    (hw : uploadParts env = Phase.waited tr) :
    (∀ fuel run, Upload fuel env = some run →
        (0 < polls run.trace ↔ env.completeResp = Except.ok (true, false)))
    ∧ (env.completeResp = Except.ok (true, false) →
        ∀ k, (∀ j, j < k → env.asyncResp j = Except.ok false) →
          (env.asyncResp k = Except.ok true →
            (∀ fuel, k + 1 ≤ fuel →
              ∃ run, Upload fuel env = some run ∧ run.ret = Ret.nil ∧ polls run.trace = k + 1)
            ∧ (∀ fuel, fuel ≤ k → Upload fuel env = none))
          ∧ (∀ e, env.asyncResp k = Except.error e →
              ∀ fuel, k + 1 ≤ fuel →
                ∃ run, Upload fuel env = some run ∧ run.ret = Ret.error e
                  ∧ polls run.trace = k + 1)) := by
  have hev : ∀ e ∈ tr, partEvent e := by
    have := uploadParts_partEvent env
    rwa [hw] at this
  have hp0 : polls tr = 0 := polls_eq_zero_of_partEvent tr hev
  have hpc : polls (tr ++ [Event.complete]) = 0 := by
    rw [polls_append, hp0]
    rfl
  refine ⟨?_, ?_⟩
  · intro fuel run hrun
    unfold Upload at hrun
    simp only [hw] at hrun
    unfold uploadFinish at hrun
    cases hc : env.completeResp with
    | error e =>
      simp only [hc, Option.some.injEq] at hrun
      subst hrun
      simp [hpc]
    | ok ac =>
      obtain ⟨a, c⟩ := ac
      cases a <;> cases c <;> simp only [hc] at hrun
      · simp at hrun; subst hrun; simp [hpc]
      · simp at hrun; subst hrun; simp [hpc]
      · simp only [Bool.true_eq_false, or_self, if_false] at hrun
        have := pollLoop_polls _ _ _ _ _ hrun
        simp only [iff_true]
        omega
      · simp at hrun; subst hrun; simp [hpc]
  · intro hc k hfalse
    have hfin : ∀ fuel, Upload fuel env
        = pollLoop env.asyncResp fuel 0 (tr ++ [Event.complete]) := by
      intro fuel
      unfold Upload
      simp only [hw]
      unfold uploadFinish
      simp [hc]
    have hpre : ∀ f, pollLoop env.asyncResp (k + f) 0 (tr ++ [Event.complete])
        = pollLoop env.asyncResp f (0 + k)
            (tr ++ [Event.complete] ++ List.replicate k Event.async) :=
      fun f => pollLoop_prefix env.asyncResp k f 0 _ (fun j hj => by simpa using hfalse j hj)
    have hrep : polls (tr ++ [Event.complete] ++ List.replicate k Event.async) = k := by
      rw [polls_append, hpc]
      simp [polls]
    refine ⟨fun htrue => ⟨?_, ?_⟩, ?_⟩
    · intro fuel hfuel
      obtain ⟨f, rfl⟩ : ∃ f, fuel = k + (f + 1) := ⟨fuel - k - 1, by omega⟩
      rw [hfin, hpre, pollLoop]
      simp only [Nat.zero_add, htrue]
      refine ⟨_, rfl, rfl, ?_⟩
      simp only
      rw [polls_append, hrep]
      simp [polls]
    · intro fuel hfuel
      rw [hfin]
      exact pollLoop_short env.asyncResp fuel 0 _ k hfuel
        (fun j hj => by simpa using hfalse j hj)
    · intro e herr fuel hfuel
      obtain ⟨f, rfl⟩ : ∃ f, fuel = k + (f + 1) := ⟨fuel - k - 1, by omega⟩
      rw [hfin, hpre, pollLoop]
      simp only [Nat.zero_add, herr]
      refine ⟨_, rfl, rfl, ?_⟩
      simp only
      rw [polls_append, hrep]
      simp [polls]

/-- Witness of C8: with polls answering `false`, `false`, `true`, `Upload` returns `nil` after
exactly three polls and has not returned after two. -/
theorem upload_async_polling_witness :
    (∃ run, Upload 3 envAsync = some run ∧ run.ret = Ret.nil ∧ polls run.trace = 3)
      ∧ Upload 2 envAsync = none := by
  obtain ⟨tr, hw⟩ := isWaited_iff (uploadParts envAsync) (by decide)
  have h := ((upload_async_polling envAsync tr hw).2 rfl 2
    (fun j hj => by
      have hj2 : ¬ 2 ≤ j := by omega
      simp [envAsync, hj2])).1 rfl
  exact ⟨h.1 3 (le_refl _), h.2 2 (le_refl _)⟩

end Open123

namespace AliDrive

theorem request_tokenLoop_none (fuel : Nat) (url : String) (s : St) :
    request envTokenLoop fuel url s = none := by
  induction fuel generalizing s with
  | zero => rfl
  | succ fuel ih =>
    rw [request]
    simp [envTokenLoop, codeResponse, refreshToken, okToken]
    exact ih _

/-- C4 (counterexample): when the server answers every request with `AccessTokenInvalid` and
every token refresh succeeds, no amount of fuel lets `request` return: the call refreshes and
re-issues for ever. -/
theorem request_token_repair_unbounded :
    ¬ ∃ fuel r, request envTokenLoop fuel "https://api.alipan.com/adrive/v4/file/list" St.init
        = some r := by
  rintro ⟨fuel, r, h⟩
  rw [request_tokenLoop_none] at h
  exact Option.noConfusion h

theorem refreshes_append (a b : List Event) : refreshes (a ++ b) = refreshes a + refreshes b := by
  simp [refreshes, List.count_append]

theorem executions_append (url : String) (a b : List Event) :
    executions url (a ++ b) = executions url a + executions url b := by
  simp [executions, List.count_append]

theorem request_final (env : Env) (fuel : Nat) (url : String) (s : St)
    (hload : env.loaded = true)
    (hlast : (env.server s.executed).transportErr ≠ none
      ∨ ((env.server s.executed).e.code ≠ "AccessTokenInvalid"
          ∧ (env.server s.executed).e.code ≠ "DeviceSessionSignatureInvalid")) :
    ∃ r, request env (fuel + 1) url s
      = some (r, { s with executed := s.executed + 1, trace := s.trace ++ [Event.execute url] }) := by
  rw [request]
  simp only [hload, Bool.true_eq_false, false_and, if_false]
  cases hT : (env.server s.executed).transportErr with
  | some err => exact ⟨_, rfl⟩
  | none =>
    rcases hlast with h | ⟨h1, h2⟩
    · exact absurd hT h
    · simp only [h1, h2, if_false]
      by_cases hc : (env.server s.executed).e.code = ""
      · simp only [hc, ne_eq, not_true_eq_false, if_false]
        cases (env.server s.executed).isError
        · exact ⟨_, rfl⟩
        · exact ⟨_, rfl⟩
      · simp only [ne_eq, hc, not_false_eq_true, if_true]
        exact ⟨_, rfl⟩

theorem request_token_step (env : Env) (fuel : Nat) (url : String) (s : St)
    (hload : env.loaded = true)
    (hinv : (env.server s.executed).transportErr = none
      ∧ (env.server s.executed).e.code = "AccessTokenInvalid")
    (htok : (env.token s.refreshed).transportErr = none ∧ (env.token s.refreshed).e.code = ""
      ∧ (env.token s.refreshed).refreshToken ≠ "") :
    request env (fuel + 1) url s
      = request env fuel url
          { s with executed := s.executed + 1, refreshed := s.refreshed + 1,
                   trace := s.trace ++ [Event.execute url] ++ [Event.refreshToken] } := by
  rw [request]
  simp only [hload, Bool.true_eq_false, false_and, if_false, hinv.1, hinv.2]
  simp [refreshToken, htok.1, htok.2.1, htok.2.2]

/-- C4 (amended): `request` repairs and re-issues once per recoverable answer, without a fixed
bound.  When the first `n` answers carry `AccessTokenInvalid` (each token refresh succeeding)
and answer `n + 1` is a transport failure or carries neither recoverable code, the call returns
after exactly `n` token refreshes and `n + 1` executions of the request, and not within `n`
nested calls; the retry counter is untouched. -/
theorem request_token_repairs_follow_server (env : Env) (url : String) (n : Nat) (s : St)
    (hload : env.loaded = true)
    (hinv : ∀ j, j < n → (env.server (s.executed + j)).transportErr = none
      ∧ (env.server (s.executed + j)).e.code = "AccessTokenInvalid")
    (htok : ∀ j, j < n → (env.token (s.refreshed + j)).transportErr = none
      ∧ (env.token (s.refreshed + j)).e.code = ""
      ∧ (env.token (s.refreshed + j)).refreshToken ≠ "")
    (hlast : (env.server (s.executed + n)).transportErr ≠ none
      ∨ ((env.server (s.executed + n)).e.code ≠ "AccessTokenInvalid"
          ∧ (env.server (s.executed + n)).e.code ≠ "DeviceSessionSignatureInvalid")) :
    (∀ fuel, n + 1 ≤ fuel → ∃ r t, request env fuel url s = some (r, t)
        ∧ t.executed = s.executed + n + 1 ∧ t.refreshed = s.refreshed + n
        ∧ refreshes t.trace = refreshes s.trace + n
        ∧ executions url t.trace = executions url s.trace + n + 1
        ∧ t.retry = s.retry)
    ∧ (∀ fuel, fuel ≤ n → request env fuel url s = none) := by
  induction n generalizing s with
  | zero =>
    refine ⟨?_, ?_⟩
    · intro fuel hfuel
      obtain ⟨f, rfl⟩ : ∃ f, fuel = f + 1 := ⟨fuel - 1, by omega⟩
      obtain ⟨r, hr⟩ := request_final env f url s hload (by simpa using hlast)
      refine ⟨r, _, hr, rfl, rfl, ?_, ?_, rfl⟩
      · simp [refreshes_append, refreshes]
      · simp [executions_append, executions]
    · intro fuel hfuel
      have : fuel = 0 := by omega
      subst this
      rfl
  | succ n ih =>
    have h0 := hinv 0 (Nat.succ_pos _)
    have t0 := htok 0 (Nat.succ_pos _)
    simp only [Nat.add_zero] at h0 t0
    have hstep := fun fuel => request_token_step env fuel url s hload h0 t0
    have hrec := ih
      { s with executed := s.executed + 1, refreshed := s.refreshed + 1,
               trace := s.trace ++ [Event.execute url] ++ [Event.refreshToken] }
      (fun j hj => by
        have := hinv (j + 1) (by omega)
        simpa [Nat.add_assoc, Nat.add_comm 1 j] using this)
      (fun j hj => by
        have := htok (j + 1) (by omega)
        simpa [Nat.add_assoc, Nat.add_comm 1 j] using this)
      (by simpa [Nat.add_assoc, Nat.add_comm 1 n] using hlast)
    refine ⟨?_, ?_⟩
    · intro fuel hfuel
      obtain ⟨f, rfl⟩ : ∃ f, fuel = f + 1 := ⟨fuel - 1, by omega⟩
      obtain ⟨r, t, hr, h1, h2, h3, h4, h5⟩ := hrec.1 f (by omega)
      refine ⟨r, t, by rw [hstep, hr], ?_, ?_, ?_, ?_, ?_⟩
      · simp only at h1; omega
      · simp only at h2; omega
      · simp only [refreshes_append] at h3
        simp only [refreshes, List.count_singleton] at h3 ⊢
        simp at h3
        omega
      · simp only [executions_append] at h4
        simp only [executions, List.count_singleton] at h4 ⊢
        simp at h4
        omega
      · simpa using h5
    · intro fuel hfuel
      cases fuel with
      | zero => rfl
      | succ f =>
        rw [hstep]
        exact hrec.2 f (by omega)

/-- Witness of C4 (amended): two `AccessTokenInvalid` answers followed by a success give two
token refreshes and three executions, with fuel 3 and not with fuel 2. -/
theorem request_token_repairs_follow_server_witness :
    (∃ r t, request envTokenTwice 3 "https://api.alipan.com/v3/batch" St.init = some (r, t)
        ∧ refreshes t.trace = 2 ∧ executions "https://api.alipan.com/v3/batch" t.trace = 3)
    ∧ request envTokenTwice 2 "https://api.alipan.com/v3/batch" St.init = none := by
  have h := request_token_repairs_follow_server envTokenTwice "https://api.alipan.com/v3/batch"
    2 St.init rfl
    (fun j hj => by
      have hj2 : St.init.executed + j < 2 := by simpa [St.init] using hj
      simp [envTokenTwice, hj2, codeResponse])
    (fun j _ => by simp [envTokenTwice, okToken])
    (Or.inr (by simp [envTokenTwice, St.init, okResponse]))
  obtain ⟨r, t, hr, _, _, h3, h4, _⟩ := h.1 3 (le_refl _)
  exact ⟨⟨r, t, hr, by simpa [St.init, refreshes] using h3,
    by simpa [St.init, executions] using h4⟩, h.2 2 (le_refl _)⟩

/-- C6: a response whose structured error code is non-empty and is neither
`AccessTokenInvalid` nor `DeviceSessionSignatureInvalid` makes `request` return a nil body, an
error whose text is the message of the response, and the `RespErr` of the response; a transport
failure of the execution is returned as it is.  In both cases the state afterwards differs
from the state before only by the one execution: no token refresh, no session creation, no
second execution, and the same retry counter. -/
theorem request_surfaces_other_errors (env : Env) (fuel : Nat) (url : String) (s : St)
    (hload : env.loaded = true ∨ url = userGetUrl) :
    ((env.server s.executed).transportErr = none →
      (env.server s.executed).e.code ≠ "" →
      (env.server s.executed).e.code ≠ "AccessTokenInvalid" →
      (env.server s.executed).e.code ≠ "DeviceSessionSignatureInvalid" →
      request env (fuel + 1) url s
        = some (⟨none, some (env.server s.executed).e.message, (env.server s.executed).e⟩,
            { s with executed := s.executed + 1, trace := s.trace ++ [Event.execute url] }))
    ∧ (∀ err, (env.server s.executed).transportErr = some err →
      request env (fuel + 1) url s
        = some (⟨none, some err, (env.server s.executed).e⟩,
            { s with executed := s.executed + 1, trace := s.trace ++ [Event.execute url] })) := by
  have hguard : ¬ (env.loaded = false ∧ url ≠ userGetUrl) := by
    rintro ⟨h1, h2⟩
    rcases hload with h | h
    · rw [h] at h1
      exact Bool.noConfusion h1
    · exact h2 h
  refine ⟨?_, ?_⟩
  · intro hT hc h1 h2
    rw [request]
    simp only [hguard, if_false, hT, ne_eq, hc, not_false_eq_true, if_true, h1, h2]
  · intro err hT
    rw [request]
    simp only [hguard, if_false, hT]

/-- Witness of C6: the code `ForbiddenNoPermission` is returned verbatim after one execution. -/
theorem request_surfaces_other_errors_witness :
    request envForbidden 1 "https://api.alipan.com/v3/batch" St.init
      = some (⟨none, some "rejected: ForbiddenNoPermission",
            ⟨"ForbiddenNoPermission", "rejected: ForbiddenNoPermission"⟩⟩,
          ⟨0, 1, 0, 0, [Event.execute "https://api.alipan.com/v3/batch"]⟩) :=
  (request_surfaces_other_errors envForbidden 0 "https://api.alipan.com/v3/batch" St.init
    (Or.inl rfl)).1 rfl (by decide) (by decide) (by decide)

theorem createSessionWith_retry_le (reqS : St → Option (Result × St)) (env : Env)
    (hkeep : ∀ a r b, a.retry ≤ 3 → reqS a = some (r, b) → b.retry ≤ 3)
    (s t : St) (err : Option String) (hs : s.retry ≤ 3)
    (h : createSessionWith reqS env s = some (err, t)) : t.retry ≤ 3 := by
  unfold createSessionWith at h
  cases hl : env.loaded
  · simp only [hl, if_true, Option.some.injEq, Prod.mk.injEq] at h
    rw [← h.2]
    exact hs
  · simp only [hl, Bool.true_eq_false, if_false] at h
    by_cases h3 : s.retry + 1 > 3
    · simp only [h3, if_true, Option.some.injEq, Prod.mk.injEq] at h
      rw [← h.2]
      exact Nat.zero_le _
    · simp only [h3, if_false] at h
      cases hr : reqS { s with trace := s.trace ++ [Event.sign], retry := s.retry + 1 } with
      | none => simp [hr] at h
      | some p =>
        obtain ⟨r, b⟩ := p
        have hb := hkeep _ _ _ (by simp only; omega) hr
        simp only [hr] at h
        cases he : r.err with
        | none =>
          simp only [he, Option.some.injEq, Prod.mk.injEq] at h
          rw [← h.2]
          exact Nat.zero_le _
        | some e2 =>
          simp only [he, Option.some.injEq, Prod.mk.injEq] at h
          rw [← h.2]
          exact hb

theorem requestSWith_retry_le (req : String → St → Option (Result × St)) (env : Env)
    (hreq : ∀ url a r b, a.retry ≤ 3 → req url a = some (r, b) → b.retry ≤ 3)
    (url : String) (s t : St) (r : Result) (hs : s.retry ≤ 3)
    (h : requestSWith req env url s = some (r, t)) : t.retry ≤ 3 := by
  unfold requestSWith at h
  cases hg : env.getSignErr s.signed with
  | some e =>
    simp only [hg, Option.some.injEq, Prod.mk.injEq] at h
    rw [← h.2]
    exact hs
  | none =>
    simp only [hg] at h
    cases hh : env.securityHeaderErr s.signed with
    | some e =>
      simp only [hh, Option.some.injEq, Prod.mk.injEq] at h
      rw [← h.2]
      exact hs
    | none =>
      simp only [hh] at h
      exact hreq _ _ _ _ (by simpa using hs) h

theorem refreshToken_retry (env : Env) (s : St) : (refreshToken env s).2.retry = s.retry := by
  unfold refreshToken
  cases hT : (env.token s.refreshed).transportErr with
  | some e => simp only [hT]
  | none =>
    simp only [hT]
    split_ifs <;> rfl

/-- In the full recursion, where the session-creation request may itself repair the session,
a call of `request` that starts with the retry counter at most 3 ends with it at most 3. -/
theorem request_retry_le (env : Env) (fuel : Nat) (url : String) (s t : St) (r : Result)
    (hs : s.retry ≤ 3) (h : request env fuel url s = some (r, t)) : t.retry ≤ 3 := by
  induction fuel generalizing url s t r with
  | zero => simp [request] at h
  | succ fuel ih =>
    rw [request] at h
    by_cases hg : env.loaded = false ∧ url ≠ userGetUrl
    · rw [if_pos hg] at h
      simp only [Option.some.injEq, Prod.mk.injEq] at h
      rw [← h.2]
      exact hs
    · rw [if_neg hg] at h
      simp only at h
      cases hT : (env.server s.executed).transportErr with
      | some err =>
        simp only [hT, Option.some.injEq, Prod.mk.injEq] at h
        rw [← h.2]
        exact hs
      | none =>
        simp only [hT] at h
        by_cases hc : (env.server s.executed).e.code ≠ ""
        · rw [if_pos hc] at h
          by_cases ha : (env.server s.executed).e.code = "AccessTokenInvalid"
          · rw [if_pos ha] at h
            have hrt := refreshToken_retry env
              { s with executed := s.executed + 1, trace := s.trace ++ [Event.execute url] }
            rcases hv : refreshToken env
              { s with executed := s.executed + 1, trace := s.trace ++ [Event.execute url] }
              with ⟨e, s2⟩
            rw [hv] at h hrt
            simp only at hrt
            cases e with
            | some e =>
              simp only [Option.some.injEq, Prod.mk.injEq] at h
              rw [← h.2, hrt]
              exact hs
            | none =>
              simp only at h
              exact ih _ _ _ _ (by rw [hrt]; exact hs) h
          · rw [if_neg ha] at h
            by_cases hd : (env.server s.executed).e.code = "DeviceSessionSignatureInvalid"
            · rw [if_pos hd] at h
              cases hv : createSessionWith
                  (requestSWith (request env fuel) env createSessionUrl) env
                  { s with executed := s.executed + 1,
                           trace := s.trace ++ [Event.execute url] } with
              | none => simp [hv] at h
              | some p =>
                obtain ⟨e, s2⟩ := p
                have hs2 : s2.retry ≤ 3 := createSessionWith_retry_le
                  (requestSWith (request env fuel) env createSessionUrl) env
                  (fun a r b ha hab => requestSWith_retry_le (request env fuel) env
                    (fun u a2 r2 b2 ha2 hab2 => ih u a2 b2 r2 ha2 hab2) createSessionUrl a b r
                    ha hab)
                  { s with executed := s.executed + 1,
                           trace := s.trace ++ [Event.execute url] } s2 e hs hv
                rw [hv] at h
                cases e with
                | some e =>
                  simp only [Option.some.injEq, Prod.mk.injEq] at h
                  rw [← h.2]
                  exact hs2
                | none =>
                  simp only at h
                  exact ih _ _ _ _ hs2 h
            · rw [if_neg hd] at h
              simp only [Option.some.injEq, Prod.mk.injEq] at h
              rw [← h.2]
              exact hs
        · rw [if_neg hc] at h
          split_ifs at h <;>
            (simp only [Option.some.injEq, Prod.mk.injEq] at h
             rw [← h.2]
             exact hs)

theorem createSessionWith_failed (reqS : St → Option (Result × St)) (env : Env)
    (hload : env.loaded = true)
    (hkeep : ∀ a r b, reqS a = some (r, b) → b.retry = a.retry)
    (s t : St) (err : String) (hs : s.retry < 3)
    (h : createSessionWith reqS env s = some (some err, t)) : t.retry = s.retry + 1 := by
  unfold createSessionWith at h
  have h3 : ¬ (s.retry + 1 > 3) := by omega
  simp only [hload, Bool.true_eq_false, if_false, h3] at h
  cases hr : reqS { s with trace := s.trace ++ [Event.sign], retry := s.retry + 1 } with
  | none => simp [hr] at h
  | some p =>
    obtain ⟨r, b⟩ := p
    have hb := hkeep _ _ _ hr
    simp only [hr] at h
    cases he : r.err with
    | none => simp [he] at h
    | some e2 =>
      simp only [he, Option.some.injEq, Prod.mk.injEq] at h
      rw [← h.2, hb]

/-- C5: `createSession` as a step on the retry counter, for a loaded signing state and a
session-creation request that leaves the counter alone.  (1) When the request is issued and
succeeds, the call returns `nil` with the counter at 0.  (2) Starting from counter 0, after
three consecutive failed calls the next call returns the error "createSession failed after
three retries" whatever the request would answer, having only signed, and leaves the counter at
0.  (3) Whenever a call returns, the counter is between 0 and 3.  Parts (1) and (3) also hold
in the full recursion, where the session-creation request may repair the session itself: a
call that returns leaves the counter at most 3, and at 0 when it returns `nil`. -/
theorem createSession_retry_counter (env : Env) (hload : env.loaded = true) :
    (∀ (reqS : St → Option (Result × St)) (s : St) (r : Result) (t : St), s.retry < 3 →
        reqS { s with trace := s.trace ++ [Event.sign], retry := s.retry + 1 } = some (r, t) →
        r.err = none →
        createSessionWith reqS env s = some (none, { t with retry := 0 }))
    ∧ (∀ (reqS1 reqS2 reqS3 : St → Option (Result × St)),
        (∀ a r b, reqS1 a = some (r, b) → b.retry = a.retry) →
        (∀ a r b, reqS2 a = some (r, b) → b.retry = a.retry) →
        (∀ a r b, reqS3 a = some (r, b) → b.retry = a.retry) →
        ∀ (s0 s1 s2 s3 : St) (e1 e2 e3 : String), s0.retry = 0 →
          createSessionWith reqS1 env s0 = some (some e1, s1) →
          createSessionWith reqS2 env s1 = some (some e2, s2) →
          createSessionWith reqS3 env s2 = some (some e3, s3) →
          ∀ reqS4 : St → Option (Result × St),
            createSessionWith reqS4 env s3
              = some (some "createSession failed after three retries",
                  { s3 with trace := s3.trace ++ [Event.sign], retry := 0 }))
    ∧ (∀ (reqS : St → Option (Result × St)),
        (∀ a r b, reqS a = some (r, b) → b.retry = a.retry) →
        ∀ (s t : St) (err : Option String),
          createSessionWith reqS env s = some (err, t) → t.retry ≤ 3)
    ∧ (∀ (fuel : Nat) (s t : St) (err : Option String),
        createSession env fuel s = some (err, t) → t.retry ≤ 3 ∧ (err = none → t.retry = 0)) := by
  have hthree : ∀ (reqS : St → Option (Result × St)),
      (∀ a r b, reqS a = some (r, b) → b.retry = a.retry) →
      ∀ (s t : St) (err : Option String),
        createSessionWith reqS env s = some (err, t) → t.retry ≤ 3 := by
    intro reqS hkeep s t err h
    unfold createSessionWith at h
    simp only [hload, Bool.true_eq_false, if_false] at h
    by_cases h3 : s.retry + 1 > 3
    · simp only [h3, if_true, Option.some.injEq, Prod.mk.injEq] at h
      rw [← h.2]
      exact Nat.zero_le _
    · simp only [h3, if_false] at h
      cases hr : reqS { s with trace := s.trace ++ [Event.sign], retry := s.retry + 1 } with
      | none => simp [hr] at h
      | some p =>
        obtain ⟨r, b⟩ := p
        have hb := hkeep _ _ _ hr
        simp only [hr] at h
        cases he : r.err with
        | none =>
          simp only [he, Option.some.injEq, Prod.mk.injEq] at h
          rw [← h.2]
          exact Nat.zero_le _
        | some e2 =>
          simp only [he, Option.some.injEq, Prod.mk.injEq] at h
          rw [← h.2, hb]
          simp only
          omega
  refine ⟨?_, ?_, hthree, ?_⟩
  · intro reqS s r t hs hr he
    unfold createSessionWith
    have h3 : ¬ (s.retry + 1 > 3) := by omega
    simp only [hload, Bool.true_eq_false, if_false, h3, hr, he]
  · intro reqS1 reqS2 reqS3 k1 k2 k3 s0 s1 s2 s3 e1 e2 e3 h0 c1 c2 c3 reqS4
    have r1 := createSessionWith_failed reqS1 env hload k1 s0 s1 e1 (by omega) c1
    have r2 := createSessionWith_failed reqS2 env hload k2 s1 s2 e2 (by omega) c2
    have r3 := createSessionWith_failed reqS3 env hload k3 s2 s3 e3 (by omega) c3
    unfold createSessionWith
    have h3 : s3.retry + 1 > 3 := by omega
    simp only [hload, Bool.true_eq_false, if_false, h3, if_true]
  · intro fuel s t err h
    unfold createSession createSessionWith at h
    simp only [hload, Bool.true_eq_false, if_false] at h
    by_cases h3 : s.retry + 1 > 3
    · simp only [h3, if_true, Option.some.injEq, Prod.mk.injEq] at h
      rw [← h.2]
      exact ⟨Nat.zero_le _, fun _ => rfl⟩
    · simp only [h3, if_false] at h
      cases hr : requestS env fuel createSessionUrl
          { s with trace := s.trace ++ [Event.sign], retry := s.retry + 1 } with
      | none => simp [hr] at h
      | some p =>
        obtain ⟨r, b⟩ := p
        have hb : b.retry ≤ 3 := requestSWith_retry_le (request env fuel) env
          (fun u a2 r2 b2 ha2 hab2 => request_retry_le env fuel u a2 b2 r2 ha2 hab2)
          createSessionUrl _ b r (by simp only; omega) hr
        simp only [hr] at h
        cases he : r.err with
        | none =>
          simp only [he, Option.some.injEq, Prod.mk.injEq] at h
          rw [← h.2]
          exact ⟨Nat.zero_le _, fun _ => rfl⟩
        | some e2 =>
          simp only [he, Option.some.injEq, Prod.mk.injEq] at h
          rw [← h.2, ← h.1]
          exact ⟨hb, fun hn => Option.noConfusion hn⟩

/-- Witness of C5: three session creations that fail on a transport error bring the counter
from 0 to 3; the fourth call fails with the fatal error, only signs, and resets the counter. -/
theorem createSession_retry_counter_witness :
    createSessionWith failingSessionRequest envTokenLoop
        ⟨3, 0, 0, 0, [Event.sign, Event.execute createSessionUrl, Event.sign,
          Event.execute createSessionUrl, Event.sign, Event.execute createSessionUrl]⟩
      = some (some "createSession failed after three retries",
          ⟨0, 0, 0, 0, [Event.sign, Event.execute createSessionUrl, Event.sign,
            Event.execute createSessionUrl, Event.sign, Event.execute createSessionUrl,
            Event.sign]⟩) :=
  (createSession_retry_counter envTokenLoop rfl).2.1
    failingSessionRequest failingSessionRequest failingSessionRequest
    (fun _ _ _ h => by simp only [failingSessionRequest, Option.some.injEq, Prod.mk.injEq] at h; rw [← h.2])
    (fun _ _ _ h => by simp only [failingSessionRequest, Option.some.injEq, Prod.mk.injEq] at h; rw [← h.2])
    (fun _ _ _ h => by simp only [failingSessionRequest, Option.some.injEq, Prod.mk.injEq] at h; rw [← h.2])
    St.init
    ⟨1, 0, 0, 0, [Event.sign, Event.execute createSessionUrl]⟩
    ⟨2, 0, 0, 0, [Event.sign, Event.execute createSessionUrl, Event.sign,
      Event.execute createSessionUrl]⟩
    ⟨3, 0, 0, 0, [Event.sign, Event.execute createSessionUrl, Event.sign,
      Event.execute createSessionUrl, Event.sign, Event.execute createSessionUrl]⟩
    "connection reset" "connection reset" "connection reset" rfl rfl rfl rfl
    failingSessionRequest

theorem count_examples :
    count 0 = 0 ∧ count 1 = 1 ∧ count 10485760 = 1 ∧ count 10485761 = 2 ∧ count 26214400 = 3
      ∧ count 9007199263129601 = 858993460 := by
  decide

theorem putProgress_append (a b : List PutEvent) :
    putProgress (a ++ b) = putProgress a ++ putProgress b := by
  simp [putProgress, List.filterMap_append]

theorem transfers_append (a b : List PutEvent) :
    transfers (a ++ b) = transfers a ++ transfers b := by
  simp [transfers, List.filterMap_append]

theorem putProgress_of_preludeEvent (tr : List PutEvent) (h : ∀ e ∈ tr, preludeEvent e) :
    putProgress tr = [] := by
  unfold putProgress
  rw [List.filterMap_eq_nil_iff]
  intro e he
  have := h e he
  cases e <;> simp_all [preludeEvent]

theorem transfers_of_preludeEvent (tr : List PutEvent) (h : ∀ e ∈ tr, preludeEvent e) :
    transfers tr = [] := by
  unfold transfers
  rw [List.filterMap_eq_nil_iff]
  intro e he
  have := h e he
  cases e <;> simp_all [preludeEvent]

theorem putLoop_progress (env : PutEnv) (c : Int) (n i : Nat) :
    List.Pairwise (fun a b : ℚ => a ≤ b) (putProgress (putLoop env c n i).2)
    ∧ ∀ v ∈ putProgress (putLoop env c n i).2,
        ∃ j : Nat, i ≤ j ∧ j < i + n ∧ 0 < c ∧ v = (j : ℚ) * 100 / (c : ℚ) := by
  induction n generalizing i with
  | zero => simp [putLoop, putProgress]
  | succ n ih =>
    obtain ⟨ih1, ih2⟩ := ih (i + 1)
    unfold putLoop
    cases env.canceled i
    · simp only [Bool.false_eq_true, if_false]
      cases (env.part i).requestErr with
      | some e => simp [putProgress]
      | none =>
        cases (env.part i).doErr with
        | some e => simp [putProgress]
        | none =>
          simp only
          by_cases hc : c > 0
          · simp only [if_pos hc, putProgress_append]
            have hcq : (0 : ℚ) < (c : ℚ) := by exact_mod_cast hc
            have hhead : putProgress [PutEvent.put i env.internalUpload,
                PutEvent.up ((i : ℚ) * 100 / (c : ℚ))] = [(i : ℚ) * 100 / (c : ℚ)] := by
              simp [putProgress]
            rw [hhead]
            refine ⟨?_, ?_⟩
            · simp only [List.singleton_append, List.pairwise_cons]
              refine ⟨?_, ih1⟩
              intro v hv
              obtain ⟨j, hj1, _, _, rfl⟩ := ih2 v hv
              have hij : (i : ℚ) ≤ (j : ℚ) := by exact_mod_cast (by omega : i ≤ j)
              exact div_le_div_of_nonneg_right (by linarith) hcq.le
            · intro v hv
              simp only [List.singleton_append, List.mem_cons] at hv
              rcases hv with rfl | hv
              · exact ⟨i, le_refl _, by omega, hc, rfl⟩
              · obtain ⟨j, hj1, hj2, hj3, hj4⟩ := ih2 v hv
                exact ⟨j, by omega, by omega, hj3, hj4⟩
          · simp only [if_neg hc, putProgress_append]
            have hhead : putProgress [PutEvent.put i env.internalUpload] = [] := by
              simp [putProgress]
            rw [hhead]
            refine ⟨by simpa using ih1, ?_⟩
            intro v hv
            obtain ⟨j, hj1, hj2, hj3, hj4⟩ := ih2 v (by simpa using hv)
            exact ⟨j, by omega, by omega, hj3, hj4⟩
    · simp [putProgress]

theorem rapidPath_trace (env : PutEnv) (resp1 : UploadResp) (tr : List PutEvent) :
    ∃ ext, (rapidPath env resp1 tr).trace = tr ++ ext ∧ ∀ e ∈ ext, preludeEvent e := by
  unfold rapidPath
  cases env.localFile <;> cases env.copyErr <;> cases env.seekHashErr <;>
    cases env.createTempErr <;> simp only [Bool.false_eq_true, if_false, if_true] <;>
    first
      | exact ⟨_, rfl, by simp [preludeEvent]⟩
      | (split_ifs <;> first
          | exact ⟨_, by simp only [PutPhase.trace, List.append_assoc]; rfl, by simp [preludeEvent]⟩
          | (cases env.seekRetryErr <;>
              exact ⟨_, by simp only [PutPhase.trace, List.append_assoc]; rfl,
                by simp [preludeEvent]⟩))

theorem putPrelude_preludeEvent (env : PutEnv) :
    ∀ e ∈ (putPrelude env).trace, preludeEvent e := by
  obtain ⟨ext1, h1, h1e⟩ := rapidPath_trace env (env.create1.resp.getD ⟨0, false, ""⟩)
    ([] ++ [PutEvent.create env.rapidUpload false])
  obtain ⟨ext2, h2, h2e⟩ := rapidPath_trace env (env.create1.resp.getD ⟨0, false, ""⟩)
    ([PutEvent.seek] ++ [PutEvent.create env.rapidUpload false])
  have hall1 : ∀ e ∈ [] ++ [PutEvent.create env.rapidUpload false] ++ ext1, preludeEvent e := by
    intro e he
    simp only [List.nil_append, List.singleton_append, List.mem_cons] at he
    rcases he with rfl | he
    · simp [preludeEvent]
    · exact h1e e he
  have hall2 : ∀ e ∈ [PutEvent.seek] ++ [PutEvent.create env.rapidUpload false] ++ ext2,
      preludeEvent e := by
    intro e he
    simp only [List.singleton_append, List.cons_append, List.nil_append, List.mem_cons] at he
    rcases he with rfl | rfl | he
    · simp [preludeEvent]
    · simp [preludeEvent]
    · exact h2e e he
  rw [← h1] at hall1
  rw [← h2] at hall2
  unfold putPrelude
  by_cases hh : env.rapidUpload = true ∧ env.localFile = true
  · simp only [hh, and_self, if_true]
    simp only [hh.1] at hall2
    cases env.seekHeadErr with
    | some e => simp [PutPhase.trace, preludeEvent]
    | none =>
      simp only
      split_ifs
      · simp [PutPhase.trace, preludeEvent]
      · exact hall2
      · simp [PutPhase.trace, preludeEvent]
  · simp only [hh, if_false]
    split_ifs
    · simp [PutPhase.trace, preludeEvent]
    · exact hall1
    · simp [PutPhase.trace, preludeEvent]

theorem putPrelude_preHash (env : PutEnv) (hrapid : env.rapidUpload = true)
    (resp : UploadResp) (tr : List PutEvent) (h : putPrelude env = PutPhase.transfer resp tr) :
    PutEvent.create true false ∈ tr := by
  obtain ⟨ext1, h1, _⟩ := rapidPath_trace env (env.create1.resp.getD ⟨0, false, ""⟩)
    ([] ++ [PutEvent.create true false])
  obtain ⟨ext2, h2, _⟩ := rapidPath_trace env (env.create1.resp.getD ⟨0, false, ""⟩)
    ([PutEvent.seek] ++ [PutEvent.create true false])
  have htr : (putPrelude env).trace = tr := by rw [h]; rfl
  rw [← htr]
  unfold putPrelude at h ⊢
  simp only [hrapid, true_and] at h ⊢
  cases hl : env.localFile
  · simp only [hl, Bool.false_eq_true, if_false] at h ⊢
    split_ifs at h ⊢
    · rw [h1]; simp
    · simp [PutPhase.trace]
  · simp only [hl, if_true] at h ⊢
    cases hs : env.seekHeadErr with
    | some e => simp [hs] at h
    | none =>
      simp only [hs] at h ⊢
      split_ifs at h ⊢
      · rw [h2]; simp
      · simp [PutPhase.trace]

theorem Put_trace_split (env : PutEnv) :
    (∃ r, putPrelude env = PutPhase.returned r ∧ Put env = r)
    ∨ (∃ resp tr, putPrelude env = PutPhase.transfer resp tr
        ∧ (Put env).trace = tr ++ (putLoop env (count env.size) resp.parts 0).2
            ++ (if (putLoop env (count env.size) resp.parts 0).1 = none
                then [PutEvent.complete] else [])
        ∧ ((putLoop env (count env.size) resp.parts 0).1 ≠ none →
            (Put env).ret = (putLoop env (count env.size) resp.parts 0).1)) := by
  unfold Put
  cases hp : putPrelude env with
  | returned r => exact Or.inl ⟨r, rfl, rfl⟩
  | transfer resp tr =>
    refine Or.inr ⟨resp, tr, rfl, ?_⟩
    simp only
    rcases hl : putLoop env (count env.size) resp.parts 0 with ⟨err, evs⟩
    cases err with
    | some e => simp
    | none =>
      simp only [if_true, ne_eq, not_true_eq_false, false_implies, and_true]
      split_ifs <;> rfl

/-- C10 (counterexample): for a one-byte stream (`count = 1`) and a create-session response
whose `part_info_list` has three entries, `Put` passes 0, 100 and 200 to `up`; not every value
is at most 100. -/
theorem put_progress_exceeds_100 :
    ¬ (∀ v ∈ putProgress (Put envLongList).trace, v ≤ 100) := by
  intro h
  have htr : putProgress (Put envLongList).trace
      = [((0 : Nat) : ℚ) * 100 / ((count 1 : Int) : ℚ), ((1 : Nat) : ℚ) * 100 / ((count 1 : Int) : ℚ),
          ((2 : Nat) : ℚ) * 100 / ((count 1 : Int) : ℚ)] := rfl
  have h200 := h (((2 : Nat) : ℚ) * 100 / ((count 1 : Int) : ℚ)) (by rw [htr]; simp)
  have hc : count 1 = 1 := by decide
  rw [hc] at h200
  norm_num at h200

/-- C10 (amended): the values `Put` passes to `up` are non-decreasing for every stream size and
every create-session response; every value lies in `[0, 100]` when the `part_info_list` that is
transferred has at most `count + 1` entries, `count` being the number of parts requested as
line 193 computes it in `float64`. -/
theorem put_progress_monotone_bounded (env : PutEnv) :
    List.Pairwise (fun a b : ℚ => a ≤ b) (putProgress (Put env).trace)
    ∧ ((∀ resp tr, putPrelude env = PutPhase.transfer resp tr →
          (resp.parts : Int) ≤ count env.size + 1) →
        ∀ v ∈ putProgress (Put env).trace, 0 ≤ v ∧ v ≤ 100) := by
  have hpre := putPrelude_preludeEvent env
  rcases Put_trace_split env with ⟨r, hp, hr⟩ | ⟨resp, tr, hp, htr, _⟩
  · rw [hp] at hpre
    simp only [PutPhase.trace] at hpre
    rw [hr, putProgress_of_preludeEvent _ hpre]
    simp
  · rw [hp] at hpre
    simp only [PutPhase.trace] at hpre
    have hloop := putLoop_progress env (count env.size) resp.parts 0
    have hprog : putProgress (Put env).trace
        = putProgress (putLoop env (count env.size) resp.parts 0).2 := by
      rw [htr, putProgress_append, putProgress_append, putProgress_of_preludeEvent _ hpre]
      split_ifs <;> simp [putProgress]
    rw [hprog]
    refine ⟨hloop.1, ?_⟩
    intro hlen v hv
    have hparts := hlen resp tr hp
    obtain ⟨j, _, hj, hc, rfl⟩ := hloop.2 v hv
    have hcq : (0 : ℚ) < (count env.size : ℚ) := by exact_mod_cast hc
    have hjc : (j : ℚ) ≤ (count env.size : ℚ) := by
      have : (j : Int) ≤ count env.size := by omega
      exact_mod_cast this
    refine ⟨by positivity, ?_⟩
    rw [div_le_iff₀ hcq]
    linarith

/-- Witness of C10 (amended): when the three parts requested for 25 MB are returned and all
transferred, `Put` reports three progress values, each in `[0, 100]`. -/
theorem put_progress_monotone_bounded_witness :
    (putProgress (Put envAllParts).trace).length = 3
      ∧ ∀ v ∈ putProgress (Put envAllParts).trace, 0 ≤ v ∧ v ≤ 100 :=
  ⟨rfl, (put_progress_monotone_bounded envAllParts).2 (fun resp tr h => by
    have hp : putPrelude envAllParts
        = PutPhase.transfer ⟨3, false, "f1"⟩ [PutEvent.create false false] := rfl
    rw [hp] at h
    injection h with h1 _
    rw [← h1]
    decide)⟩

theorem putLoop_no_complete (env : PutEnv) (c : Int) (n i : Nat) :
    PutEvent.complete ∉ (putLoop env c n i).2 := by
  induction n generalizing i with
  | zero => simp [putLoop]
  | succ n ih =>
    have := ih (i + 1)
    unfold putLoop
    cases env.canceled i <;> cases (env.part i).requestErr <;> cases (env.part i).doErr <;>
      simp only [Bool.false_eq_true, if_false, if_true, List.not_mem_nil, not_false_eq_true,
        List.mem_singleton, List.mem_append, this, or_false, reduceCtorEq]
    split_ifs <;> simp

theorem putLoop_cancel (env : PutEnv) (c : Int) (k : Nat) (hck : env.canceled k = true)
    (n i : Nat) (hik : i ≤ k) (hkn : k < i + n)
    (hbefore : ∀ j, i ≤ j → j < k → env.canceled j = false
      ∧ (env.part j).requestErr = none ∧ (env.part j).doErr = none) :
    (putLoop env c n i).1 = some env.ctxErr
    ∧ transfers (putLoop env c n i).2 = List.range' i (k - i) := by
  induction n generalizing i with
  | zero => omega
  | succ n ih =>
    unfold putLoop
    by_cases hik2 : i = k
    · subst hik2
      simp [hck, transfers]
    · obtain ⟨h1, h2, h3⟩ := hbefore i (le_refl _) (by omega)
      obtain ⟨r1, r2⟩ := ih (i + 1) (by omega) (by omega)
        (fun j hj1 hj2 => hbefore j (by omega) hj2)
      simp only [h1, Bool.false_eq_true, if_false, h2, h3]
      refine ⟨r1, ?_⟩
      rw [transfers_append, r2]
      have hr : k - i = (k - (i + 1)) + 1 := by omega
      rw [hr, List.range'_succ]
      split_ifs <;> simp [transfers]

theorem mem_of_split {α : Type} (A B pre post : List α) (x y : α) (hx : x ∈ A) (hy : y ∉ A)
    (h : A ++ B = pre ++ y :: post) : x ∈ pre := by
  rcases List.append_eq_append_iff.mp h with ⟨a, ha, _⟩ | ⟨c, hc, hc2⟩
  · rw [ha]
    exact List.mem_append_left _ hx
  · cases c with
    | nil => simpa [hc] using hx
    | cons z c =>
      simp only [List.cons_append, List.cons.injEq] at hc2
      exact absurd (by rw [hc, hc2.1]; simp) hy

/-- C7: in the part loops of `Open123.Upload` and `AliDrive.Put`, when cancellation is first
observed at the check before part `k`, exactly the parts `0 .. k-1` have been dispatched
(`Upload`) or transferred (`Put`), the completion request is not issued, and the context's
error is returned. -/
theorem cancellation_stops_part_loops (k : Nat) :
    (∀ (env : Open123.UploadEnv) (fuel : Nat), env.sliceSize ≠ 0 → env.readerErr = none →
        (k : Int) < Open123.uploadNums env.size env.sliceSize →
        env.canceled k = true → (∀ j, j < k → env.canceled j = false) →
        ∃ tr, Open123.Upload fuel env = some ⟨Open123.Ret.error env.ctxErr, tr⟩
          ∧ Open123.dispatched tr
              = (List.range k).map
                  (fun j : Nat => Open123.mkPart env.size env.sliceSize (j : Int))
          ∧ (Open123.dispatched tr).length = k
          ∧ Open123.Event.complete ∉ tr)
    ∧ (∀ (env : PutEnv) (resp : UploadResp) (tr : List PutEvent),
        putPrelude env = PutPhase.transfer resp tr → k < resp.parts →
        env.canceled k = true →
        (∀ j, j < k → env.canceled j = false
          ∧ (env.part j).requestErr = none ∧ (env.part j).doErr = none) →
        (Put env).ret = some env.ctxErr ∧ transfers (Put env).trace = List.range k
          ∧ PutEvent.complete ∉ (Put env).trace) := by
  refine ⟨?_, ?_⟩
  · intro env fuel h0 hreader hk hck hbefore
    obtain ⟨tr, hp, hd, hc⟩ := Open123.uploadParts_cancel env k h0 hreader hk hck hbefore
    refine ⟨tr, ?_, hd, by rw [hd]; simp, hc⟩
    unfold Open123.Upload
    rw [hp]
  · intro env resp tr hp hk hck hbefore
    have hpre := putPrelude_preludeEvent env
    rw [hp] at hpre
    simp only [PutPhase.trace] at hpre
    obtain ⟨l1, l2⟩ := putLoop_cancel env (count env.size) k hck resp.parts 0 (Nat.zero_le _)
      (by omega) (fun j _ hj => hbefore j hj)
    rcases Put_trace_split env with ⟨r, hp2, _⟩ | ⟨resp2, tr2, hp2, htr, hret⟩
    · rw [hp] at hp2
      exact PutPhase.noConfusion hp2
    · rw [hp] at hp2
      injection hp2 with e1 e2
      subst e1 e2
      have hne : (putLoop env (count env.size) resp.parts 0).1 ≠ none := by
        rw [l1]
        exact Option.some_ne_none _
      refine ⟨by rw [hret hne, l1], ?_, ?_⟩
      · rw [htr, transfers_append, transfers_append, transfers_of_preludeEvent _ hpre, l2,
          if_neg hne]
        simp [transfers, List.range_eq_range']
      · rw [htr, if_neg hne]
        simp only [List.append_nil, List.mem_append, not_or]
        refine ⟨?_, putLoop_no_complete _ _ _ _⟩
        intro hmem
        simpa [preludeEvent] using hpre _ hmem

/-- Witness of C7: with cancellation first observed before part 1, `Upload` has dispatched one
part and `Put` has transferred one part; both return the context's error without completing. -/
theorem cancellation_stops_part_loops_witness :
    (∃ tr, Open123.Upload 0 Open123.envCancel
        = some ⟨Open123.Ret.error "context canceled", tr⟩
      ∧ (Open123.dispatched tr).length = 1 ∧ Open123.Event.complete ∉ tr)
    ∧ ((Put envThreeParts).ret = some "context canceled"
      ∧ transfers (Put envThreeParts).trace = [0]
      ∧ PutEvent.complete ∉ (Put envThreeParts).trace) := by
  have h := cancellation_stops_part_loops 1
  refine ⟨?_, ?_⟩
  · obtain ⟨tr, h1, _, h3, h4⟩ := h.1 Open123.envCancel 0 (by decide) rfl (by decide) rfl
      (fun j hj => by
        have hj0 : j = 0 := by omega
        subst hj0
        rfl)
    exact ⟨tr, h1, h3, h4⟩
  · have hp : putPrelude envThreeParts
        = PutPhase.transfer ⟨3, false, "f1"⟩ [PutEvent.create false false] := rfl
    have h2 := h.2 envThreeParts _ _ hp (by decide) rfl
      (fun j hj => by
        have hj0 : j = 0 := by omega
        subst hj0
        exact ⟨rfl, rfl, rfl⟩)
    exact ⟨h2.1, by simpa using h2.2.1, h2.2.2⟩

theorem rapid_prelude_returns (env : PutEnv) (hrapid : env.rapidUpload = true)
    (hcode : env.create1.code = "PreHashMatched")
    (hmem : PutEvent.create false true ∈ (putPrelude env).trace)
    (r : UploadResp) (hr : env.create2.resp = some r) (hrr : r.rapidUpload = true)
    (herr : env.create2.err = none ∨ env.create2.code = "PreHashMatched") :
    ∃ tr, putPrelude env = PutPhase.returned ⟨none, tr⟩ := by
  have hif : ¬ (env.create2.err ≠ none ∧ env.create2.code ≠ "PreHashMatched") := by
    rintro ⟨h1, h2⟩
    rcases herr with h | h
    · exact h1 h
    · exact h2 h
  have hif1 : ¬ (env.create1.err ≠ none ∧ env.create1.code ≠ "PreHashMatched") :=
    fun h => h.2 hcode
  unfold putPrelude rapidPath at hmem ⊢
  simp only [hrapid, true_and, hcode, hif1, if_false, if_true, hr, Option.getD_some, hrr,
    hif] at hmem ⊢
  cases hl : env.localFile <;> cases hs : env.seekHeadErr <;> cases hc : env.copyErr <;>
    cases hsh : env.seekHashErr <;> cases hct : env.createTempErr <;>
    simp [hl, hs, hc, hsh, hct, PutPhase.trace] at hmem ⊢

theorem putLoop_no_create (env : PutEnv) (c : Int) (n i : Nat) (a b : Bool) :
    PutEvent.create a b ∉ (putLoop env c n i).2 := by
  induction n generalizing i with
  | zero => simp [putLoop]
  | succ n ih =>
    have := ih (i + 1)
    unfold putLoop
    cases env.canceled i <;> cases (env.part i).requestErr <;> cases (env.part i).doErr <;>
      simp only [Bool.false_eq_true, if_false, if_true, List.not_mem_nil, not_false_eq_true,
        List.mem_singleton, List.mem_append, this, or_false, reduceCtorEq]
    split_ifs <;> simp

/-- C9: with `RapidUpload` enabled, every part transfer of `Put` is preceded by the pre-hash
create request; and when that request returns the code `PreHashMatched` and the second create
request (carrying `content_hash` and `proof_code`) is issued and yields a response with
`rapid_upload = true`, `Put` returns `nil` without any part transfer and without the
completion request. -/
theorem put_rapid_upload (env : PutEnv) (hrapid : env.rapidUpload = true) :
    (∀ pre i b post, (Put env).trace = pre ++ PutEvent.put i b :: post →
        PutEvent.create true false ∈ pre)
    ∧ (env.create1.code = "PreHashMatched" →
        PutEvent.create false true ∈ (Put env).trace →
        (∃ r, env.create2.resp = some r ∧ r.rapidUpload = true) →
        (env.create2.err = none ∨ env.create2.code = "PreHashMatched") →
        (Put env).ret = none ∧ transfers (Put env).trace = []
          ∧ PutEvent.complete ∉ (Put env).trace) := by
  have hpre := putPrelude_preludeEvent env
  refine ⟨?_, ?_⟩
  · intro pre i b post hsplit
    rcases Put_trace_split env with ⟨r, hp, hr⟩ | ⟨resp, tr, hp, htr, _⟩
    · rw [hp] at hpre
      simp only [PutPhase.trace] at hpre
      have hmem : PutEvent.put i b ∈ (Put env).trace := by
        rw [hsplit]
        simp
      rw [hr] at hmem
      simpa [preludeEvent] using hpre _ hmem
    · rw [hp] at hpre
      simp only [PutPhase.trace] at hpre
      have hc := putPrelude_preHash env hrapid resp tr hp
      rw [htr, List.append_assoc] at hsplit
      exact mem_of_split tr _ pre post _ _ hc
        (fun hmem => by simpa [preludeEvent] using hpre _ hmem) hsplit
  · rintro hcode hmem ⟨r, hr, hrr⟩ herr
    have hmem2 : PutEvent.create false true ∈ (putPrelude env).trace := by
      rcases Put_trace_split env with ⟨r2, hp, hr2⟩ | ⟨resp, tr, hp, htr, _⟩
      · rw [hp]
        rw [hr2] at hmem
        exact hmem
      · rw [hp]
        rw [htr] at hmem
        simp only [List.mem_append] at hmem
        rcases hmem with (h | h) | h
        · exact h
        · exact absurd h (putLoop_no_create _ _ _ _ _ _)
        · split_ifs at h <;> simp at h
    obtain ⟨tr, hp⟩ := rapid_prelude_returns env hrapid hcode hmem2 r hr hrr herr
    rw [hp] at hpre
    simp only [PutPhase.trace] at hpre
    have hput : Put env = ⟨none, tr⟩ := by
      unfold Put
      rw [hp]
    rw [hput]
    refine ⟨rfl, transfers_of_preludeEvent _ hpre, ?_⟩
    intro hmem3
    simpa [preludeEvent] using hpre _ hmem3

/-- Witness of C9: a stream whose pre-hash matches and whose content hash is accepted is
uploaded without any part transfer and without the completion request. -/
theorem put_rapid_upload_witness :
    (Put envRapid).ret = none ∧ transfers (Put envRapid).trace = []
      ∧ PutEvent.complete ∉ (Put envRapid).trace :=
  (put_rapid_upload envRapid rfl).2 rfl (by decide) ⟨⟨0, true, "f1"⟩, rfl, rfl⟩ (Or.inl rfl)

/-- C12: when the retry counter starts at 0, the signing state is loaded, the server answers
every request with `DeviceSessionSignatureInvalid` and the hook calls succeed, a call of
`request` returns (four nested calls suffice): it executes the original request once, signs and
executes the session-creation request three times, signs a fourth time, and returns the error
"createSession failed after three retries" with the retry counter back at 0. -/
theorem request_session_repair_exhausted (env : Env) (url : String) (s : St) (fuel : Nat)
    (hload : env.loaded = true) (hretry : s.retry = 0)
    (hserver : ∀ k, (env.server k).transportErr = none
      ∧ (env.server k).e.code = "DeviceSessionSignatureInvalid")
    (hsign : ∀ k, env.getSignErr k = none) (hheader : ∀ k, env.securityHeaderErr k = none)
    (hfuel : 4 ≤ fuel) :
    request env fuel url s
      = some (⟨none, some "createSession failed after three retries", (env.server s.executed).e⟩,
          { retry := 0, executed := s.executed + 4, refreshed := s.refreshed,
            signed := s.signed + 3, trace := s.trace ++ exhaustedRepair url })
    ∧ (url ≠ createSessionUrl →
        executions url (exhaustedRepair url) = 1
          ∧ executions createSessionUrl (exhaustedRepair url) = 3) := by
  obtain ⟨f, rfl⟩ : ∃ f, fuel = f + 4 := ⟨fuel - 4, by omega⟩
  refine ⟨?_, ?_⟩
  · simp [request, createSessionWith, requestSWith, hload, hserver, hsign, hheader, hretry,
      exhaustedRepair]
  · intro hne
    simp [executions, exhaustedRepair, List.count_cons, hne, Ne.symm hne]

/-- Witness of C12: against a server that only answers `DeviceSessionSignatureInvalid`, a file
listing request is executed once, the session-creation request three times, and the call
returns the fatal error with the counter at 0. -/
theorem request_session_repair_exhausted_witness :
    request envSessionInvalid 4 "https://api.alipan.com/adrive/v4/file/list" St.init
        = some (⟨none, some "createSession failed after three retries",
              ⟨"DeviceSessionSignatureInvalid", "rejected: DeviceSessionSignatureInvalid"⟩⟩,
            ⟨0, 4, 0, 3, exhaustedRepair "https://api.alipan.com/adrive/v4/file/list"⟩)
      ∧ executions "https://api.alipan.com/adrive/v4/file/list"
          (exhaustedRepair "https://api.alipan.com/adrive/v4/file/list") = 1
      ∧ executions createSessionUrl
          (exhaustedRepair "https://api.alipan.com/adrive/v4/file/list") = 3 :=
  have h := request_session_repair_exhausted envSessionInvalid
    "https://api.alipan.com/adrive/v4/file/list" St.init 4 rfl rfl
    (fun _ => ⟨rfl, rfl⟩) (fun _ => rfl) (fun _ => rfl) (le_refl _)
  ⟨h.1, h.2 (by decide)⟩

theorem hexDigit_lt (c : Char) (d : Nat) (h : hexDigit c = some d) : d < 16 := by
  unfold hexDigit at h
  simp only at h
  split_ifs at h <;> simp only [Option.some.injEq, reduceCtorEq] at h <;> omega

theorem hexValue_bound (cs : List Char) (acc : Nat)
    (h : ∀ c ∈ cs, (hexDigit c).isSome = true) :
    ∃ r, hexValue acc cs = some r ∧ r < (acc + 1) * 16 ^ cs.length := by
  induction cs generalizing acc with
  | nil => exact ⟨acc, rfl, by simp⟩
  | cons c cs ih =>
    have hc := h c (List.mem_cons_self _ _)
    obtain ⟨d, hd⟩ := Option.isSome_iff_exists.mp hc
    have hd16 := hexDigit_lt c d hd
    obtain ⟨r, hr, hlt⟩ := ih (acc * 16 + d) (fun x hx => h x (List.mem_cons_of_mem _ hx))
    refine ⟨r, by simp only [hexValue, hd, hr], ?_⟩
    calc r < (acc * 16 + d + 1) * 16 ^ cs.length := hlt
      _ ≤ ((acc + 1) * 16) * 16 ^ cs.length := Nat.mul_le_mul_right _ (by omega)
      _ = (acc + 1) * 16 ^ (c :: cs).length := by
        rw [List.length_cons, pow_succ]
        ring

theorem setString16_u64 (digest : String) (hlen : 16 ≤ digest.length)
    (hhex : ∀ c ∈ digest.toList.take 16, (hexDigit c).isSome = true) :
    ∃ r, setString16 (digest.toList.take 16) = some r ∧ r < 2 ^ 64 := by
  have hl : (digest.toList.take 16).length = 16 := by
    rw [List.length_take]
    have : digest.toList.length = digest.length := rfl
    omega
  obtain ⟨r, hr, hlt⟩ := hexValue_bound (digest.toList.take 16) 0 hhex
  rw [hl] at hlt
  refine ⟨r, ?_, by simpa using hlt⟩
  unfold setString16
  cases hcs : digest.toList.take 16 with
  | nil =>
    rw [hcs] at hl
    exact absurd hl (by decide)
  | cons c cs =>
    rw [hcs] at hr
    exact hr

theorem sectionRead_eight (content : List Nat) (o : Nat)
    (ho : o ≤ content.length) (hlen : (content.length : Int) ≤ maxInt64) :
    sectionRead content (o : Int) 8 8 = (content.drop o).take 8 := by
  unfold sectionRead
  unfold maxInt64 at hlen ⊢
  have hdl : (content.drop o).length = content.length - o := List.length_drop _ _
  by_cases h1 : (o : Int) ≤ 2 ^ 63 - 1 - 8
  · have h2 : ¬ ((o : Int) ≥ (o : Int) + 8) := by omega
    have h3 : ¬ ((o : Int) < 0) := by omega
    have h4 : (min ((8 : Nat) : Int) ((o : Int) + 8 - (o : Int))).toNat = 8 := by
      have : (o : Int) + 8 - (o : Int) = 8 := by ring
      rw [this]
      rfl
    simp only [h1, if_true, h2, if_false, h3, h4, Int.toNat_ofNat]
  · simp only [h1, if_false]
    by_cases h2 : (o : Int) ≥ 2 ^ 63 - 1
    · simp only [h2, if_true]
      have : (content.drop o).length = 0 := by omega
      rw [List.length_eq_zero] at this
      rw [this]
      rfl
    · have h3 : ¬ ((o : Int) < 0) := by omega
      simp only [h2, if_false, h3, Int.toNat_ofNat]
      have hm : (content.drop o).length
          ≤ (min ((8 : Nat) : Int) (2 ^ 63 - 1 - (o : Int))).toNat := by omega
      rw [List.take_of_length_le hm, List.take_of_length_le (by omega)]

/-- C11: for every access token and every file size `n` (an `int64`, not negative) of a file
that holds `n` bytes: the first 16 hexadecimal digits of the MD5 digest of the token denote an
unsigned 64-bit integer `r`; the proof offset is `o = r mod n` when `n > 0` and `o = 0` when
`n = 0`, without truncation in the conversion to `int64` (`0 ≤ o < n` for `n > 0`); and the
proof code is the encoding of the file bytes in `[o, min (o + 8) n)`, that is of
`min 8 (n - o)` bytes, none when `n = 0`. -/
theorem proof_code_window (md5 : String → String) (encode : List Nat → String)
    (token : String) (n : Int) (content : List Nat)
    (hlen : 16 ≤ (md5 token).length)
    (hhex : ∀ c ∈ (md5 token).toList.take 16, (hexDigit c).isSome = true)
    (hn0 : 0 ≤ n) (hn : n < 2 ^ 63) (hcontent : (content.length : Int) = n) :
    ∃ (r o : Nat), setString16 ((md5 token).toList.take 16) = some r ∧ r < 2 ^ 64
      ∧ (o : Int) = (if 0 < n then (r : Int) % n else 0)
      ∧ (0 < n → (o : Int) < n)
      ∧ proofOffset (md5 token) n = some (o : Int)
      ∧ proofCode encode (md5 token) n content = some (encode ((content.drop o).take 8))
      ∧ (((content.drop o).take 8).length : Int) = min 8 (n - o)
      ∧ (∀ j : Nat, (j : Int) < min 8 (n - o) →
          ((content.drop o).take 8)[j]? = content[o + j]?)
      ∧ (n = 0 → (content.drop o).take 8 = []) := by
  obtain ⟨r, hr, hr64⟩ := setString16_u64 (md5 token) hlen hhex
  have hnlen : ¬ ((md5 token).length < 16) := by omega
  have ho0 : 0 ≤ (if 0 < n then (r : Int) % n else 0) := by
    split_ifs with hpos
    · exact Int.emod_nonneg _ (by omega)
    · exact le_refl _
  have holt : 0 < n → (if 0 < n then (r : Int) % n else 0) < n := by
    intro hpos
    rw [if_pos hpos]
    exact Int.emod_lt_of_pos _ hpos
  have hole : (if 0 < n then (r : Int) % n else 0) ≤ n := by
    by_cases hpos : 0 < n
    · exact (holt hpos).le
    · rw [if_neg hpos]
      exact hn0
  obtain ⟨o, ho⟩ : ∃ o : Nat, (o : Int) = (if 0 < n then (r : Int) % n else 0) :=
    ⟨(if 0 < n then (r : Int) % n else 0).toNat, Int.toNat_of_nonneg ho0⟩
  have hoff : proofOffset (md5 token) n = some (o : Int) := by
    unfold proofOffset
    simp only [hnlen, if_false, hr, gt_iff_lt]
    rw [← ho, Open123.wrap64_of_range _ (by omega) (by omega)]
  have holen : o ≤ content.length := by omega
  have hdl : (content.drop o).length = content.length - o := List.length_drop _ _
  refine ⟨r, o, hr, hr64, ho, fun hpos => by rw [ho]; exact holt hpos, hoff, ?_, ?_, ?_, ?_⟩
  · unfold proofCode
    rw [hoff, Option.map_some', sectionRead_eight content o holen (by unfold maxInt64; omega)]
  · rw [List.length_take, hdl]
    omega
  · intro j hj
    have hj8 : j < 8 := by omega
    rw [List.getElem?_take_of_lt hj8, List.getElem?_drop]
  · intro hz
    have : content.length = 0 := by omega
    rw [List.length_eq_zero] at this
    rw [this]
    simp

/-- Witness of C11: for the empty token the first 16 digits of the digest denote
`15284527576400310788`; with a file of the 10 bytes `A` to `J` the offset is 8 and the window
holds the last two bytes. -/
theorem proof_code_window_witness :
    proofOffset md5OfEmpty 10 = some 8
      ∧ proofCode byteText md5OfEmpty 10 [65, 66, 67, 68, 69, 70, 71, 72, 73, 74]
          = some (byteText [73, 74]) := by
  obtain ⟨r, o, hr, _, ho, _, hoff, hcode, _⟩ := proof_code_window (fun _ => md5OfEmpty)
    byteText "" 10 [65, 66, 67, 68, 69, 70, 71, 72, 73, 74] (by decide) (by decide)
    (by decide) (by decide) rfl
  have hr2 : setString16 (md5OfEmpty.toList.take 16) = some 15284527576400310788 := by decide
  rw [hr2] at hr
  injection hr with hr3
  subst hr3
  have ho8 : o = 8 := by
    simp only [Int.reduceLT, if_true] at ho
    omega
  subst ho8
  exact ⟨hoff, hcode⟩

end AliDrive

